import Mathlib

/-
  Verification of the "veil" compiler pipeline (lexer, parser, program graph,
  translator), shallowly embedded from the C++ sources:
    src/token.h, src/lexer.h, src/lexer.cpp, src/graph.h, src/parser.h,
    src/parser.cpp, src/translator.cpp.
  Machine integers (line/column counters, indices) are modelled as Nat: the
  program only ever increments them starting from 0 or 1, so no overflow or
  negativity arises on the inputs considered.  The two state-machine loops
  (Lexer::run, Parser::run) are modelled as step functions iterated by an
  explicit fuel counter, since Lexer::run does not terminate on some inputs.
-/

namespace Veil

/-! ## Tokens (src/token.h) -/

inductive TokenType where
  | arrow
  | comma
  | divide
  | «end»
  | func_keyword
  | identifier
  | left_curly
  | left_paren
  | minus
  | modulo
  | multiply
  | plus
  | return_keyword
  | right_curly
  | right_paren
  | semicolon
deriving DecidableEq, Repr

structure Token where
  type : TokenType
  lexeme : String
  line_number : Nat
  column_number : Nat
deriving DecidableEq, Repr

/-! ## Lexer (src/lexer.h, src/lexer.cpp) -/

inductive LexerState where
  | cr_or_crlf
  | divide_or_comment
  | identifier_or_keyword
  | minus_or_arrow
  | multi_line_comment
  | multi_line_comment_cr_or_crlf
  | multi_line_comment_maybe_end
  | single_line_comment
  | start
deriving DecidableEq, Repr

/--
  C `isalpha` under the default locale, restricted to ASCII as the lexer
  only ever receives ASCII-range characters from well-formed sources.
-/
def lex_isalpha (c : Char) : Bool :=
  (65 ≤ c.toNat && c.toNat ≤ 90) || (97 ≤ c.toNat && c.toNat ≤ 122)

/-- C `isalnum` under the default locale (ASCII letters and digits). -/
def lex_isalnum (c : Char) : Bool :=
  lex_isalpha c || (48 ≤ c.toNat && c.toNat ≤ 57)

/--
  Lexer state: the fields of class Lexer (src/lexer.h).  The C++ leaves the
  start_* fields uninitialized until the first start_lexeme call; they are
  dead until then (every add_token is preceded by a start_lexeme in the same
  run), so the model initializes them to 0/1/1.
-/
structure Lexer where
  source_ : List Char
  state_ : LexerState
  index_ : Nat
  start_index_ : Nat
  line_number_ : Nat
  start_line_number_ : Nat
  column_number_ : Nat
  start_column_number_ : Nat
  columns_per_tab_ : Nat
  tokens_ : List Token
deriving Repr

/-- Lexer constructor: state start, index 0, line 1, column 1, 2 columns per tab. -/
def Lexer.init (source : List Char) : Lexer :=
  ⟨source, LexerState.start, 0, 0, 1, 1, 1, 1, 2, []⟩

/-- `char current_char() const { return source_[index_]; }` -/
def Lexer.current_char (c : Lexer) : Char :=
  c.source_.getD c.index_ '\x00'

/-- Advance to the next input character, incrementing the index/column. -/
def Lexer.advance_char (c : Lexer) : Lexer :=
  if c.index_ = c.source_.length - 1 then c
  else { c with index_ := c.index_ + 1, column_number_ := c.column_number_ + 1 }

/-- Advance to the next line, resetting to column 1. -/
def Lexer.advance_line (c : Lexer) : Lexer :=
  { c with line_number_ := c.line_number_ + 1, column_number_ := 1 }

/-- Advance one tab worth of columns, taking into account partial tabs. -/
def Lexer.advance_tab (c : Lexer) : Lexer :=
  { c with column_number_ :=
      (c.column_number_ + c.columns_per_tab_) / c.columns_per_tab_ * c.columns_per_tab_ }

/-- Begins a new lexeme, saving the current index/column/line. -/
def Lexer.start_lexeme (c : Lexer) : Lexer :=
  { c with start_index_ := c.index_,
           start_line_number_ := c.line_number_,
           start_column_number_ := c.column_number_ }

/-- Returns the lexeme indicated by the saved index and the current index. -/
def Lexer.get_lexeme (c : Lexer) : String :=
  String.mk ((c.source_.drop c.start_index_).take (c.index_ - c.start_index_))

/-- Appends a new token of the given type to the result list. -/
def Lexer.add_token (c : Lexer) (token_type : TokenType) : Lexer :=
  { c with tokens_ := c.tokens_ ++
      [⟨token_type, c.get_lexeme, c.start_line_number_, c.start_column_number_⟩] }

/--
  If the given lexeme corresponds to a keyword, returns the TokenType of the
  keyword; otherwise TokenType.identifier (get_keyword_token_type).
-/
def get_keyword_token_type (lexeme : String) : TokenType :=
  if lexeme = "func" then TokenType.func_keyword
  else if lexeme = "return" then TokenType.return_keyword
  else TokenType.identifier

/-- Result of one iteration of the while-loop of Lexer::run. -/
inductive LStep where
  | cont (c : Lexer)
  | halt (tokens : List Token)

/--
  One iteration of the while-loop body of Lexer::run (src/lexer.cpp).  In the
  start state, a character matching no case leaves the configuration unchanged
  apart from start_lexeme (the C++ switch has no default case and does not
  advance), so the loop never makes further progress there.
-/
def Lexer.step (c0 : Lexer) : LStep :=
  match c0.state_ with
  | LexerState.cr_or_crlf =>
      let c := if c0.current_char = '\n' then c0.advance_char else c0
      LStep.cont { c.advance_line with state_ := LexerState.start }
  | LexerState.divide_or_comment =>
      match c0.current_char with
      | '/' => LStep.cont { c0.advance_char with state_ := LexerState.single_line_comment }
      | '*' => LStep.cont { c0.advance_char with state_ := LexerState.multi_line_comment }
      | _ => LStep.cont { c0.add_token TokenType.divide with state_ := LexerState.start }
  | LexerState.identifier_or_keyword =>
      if lex_isalnum c0.current_char || (c0.current_char == '_') then
        LStep.cont c0.advance_char
      else
        -- add_token(identifier) followed by reclassifying the token in place
        LStep.cont { c0.add_token (get_keyword_token_type c0.get_lexeme) with
                       state_ := LexerState.start }
  | LexerState.minus_or_arrow =>
      if c0.current_char == '>' then
        LStep.cont { c0.advance_char.add_token TokenType.arrow with state_ := LexerState.start }
      else
        LStep.cont { c0.add_token TokenType.minus with state_ := LexerState.start }
  | LexerState.multi_line_comment =>
      match c0.current_char with
      | '\n' => LStep.cont c0.advance_char.advance_line
      | '\r' => LStep.cont { c0.advance_char with
                               state_ := LexerState.multi_line_comment_cr_or_crlf }
      | '*' => LStep.cont { c0.advance_char with
                              state_ := LexerState.multi_line_comment_maybe_end }
      | _ => LStep.cont c0.advance_char
  | LexerState.multi_line_comment_cr_or_crlf =>
      let c := if c0.current_char = '\n' then c0.advance_char else c0
      LStep.cont { c.advance_line with state_ := LexerState.multi_line_comment }
  | LexerState.multi_line_comment_maybe_end =>
      if c0.current_char == '/' then
        LStep.cont { c0.advance_char with state_ := LexerState.start }
      else
        LStep.cont { c0 with state_ := LexerState.multi_line_comment }
  | LexerState.single_line_comment =>
      match c0.current_char with
      | '\n' => LStep.cont { c0.advance_char.advance_line with state_ := LexerState.start }
      | '\r' => LStep.cont { c0.advance_char with state_ := LexerState.cr_or_crlf }
      | _ => LStep.cont c0.advance_char
  | LexerState.start =>
      let c := c0.start_lexeme
      if lex_isalpha c.current_char || (c.current_char == '_') then
        LStep.cont { c.advance_char with state_ := LexerState.identifier_or_keyword }
      else
        match c.current_char with
        | '+' => LStep.cont { c.advance_char.add_token TokenType.plus with
                                state_ := LexerState.start }
        | '*' => LStep.cont { c.advance_char.add_token TokenType.multiply with
                                state_ := LexerState.start }
        | '%' => LStep.cont { c.advance_char.add_token TokenType.modulo with
                                state_ := LexerState.start }
        | ',' => LStep.cont { c.advance_char.add_token TokenType.comma with
                                state_ := LexerState.start }
        | ';' => LStep.cont { c.advance_char.add_token TokenType.semicolon with
                                state_ := LexerState.start }
        | '\x7b' => LStep.cont { c.advance_char.add_token TokenType.left_curly with
                                   state_ := LexerState.start }
        | '\x7d' => LStep.cont { c.advance_char.add_token TokenType.right_curly with
                                   state_ := LexerState.start }
        | '(' => LStep.cont { c.advance_char.add_token TokenType.left_paren with
                                state_ := LexerState.start }
        | ')' => LStep.cont { c.advance_char.add_token TokenType.right_paren with
                                state_ := LexerState.start }
        | '\n' => LStep.cont c.advance_char.advance_line
        | '\r' => LStep.cont { c.advance_char with state_ := LexerState.cr_or_crlf }
        | '\t' => LStep.cont c.advance_char.advance_tab
        | ' ' => LStep.cont c.advance_char
        | '/' => LStep.cont { c.advance_char with state_ := LexerState.divide_or_comment }
        | '-' => LStep.cont { c.advance_char with state_ := LexerState.minus_or_arrow }
        | '\x00' => LStep.halt (c.add_token TokenType.«end»).tokens_
        | _ => LStep.cont c

/--
  Iterating Lexer::run's loop body with fuel; none means the loop has not
  finished within the given number of iterations.
-/
def Lexer.runFuel : Nat → Lexer → Option (List Token)
  | 0, _ => Option.none
  | n + 1, c =>
      match c.step with
      | LStep.cont c' => Lexer.runFuel n c'
      | LStep.halt ts => some ts

/-! ## Program graph (src/graph.h)

  The C++ graph is a tree of shared_ptr-linked entities.  The model uses plain
  inductive values: every entity the parser ever creates is attached to its
  container immediately, so containment is represented by nesting.  Name
  resolution references (Object to Class, Function.return_class_ to Class) are
  modelled by storing the resolved Class value.
-/

/-- Class: a named type (nothing beyond identity). -/
structure Class where
  name : String
deriving DecidableEq, Repr

/-- Object: a named, typed storage slot; cls_ is the referenced Class. -/
structure Object where
  name : String
  cls : Class
deriving DecidableEq, Repr

/-- Type of operator that appears within an expression. -/
inductive OperatorType where
  | plus
deriving DecidableEq, Repr

/--
  Expression: ObjectExpression holds its referenced Object; OperatorExpression
  holds its operator type and its ordered contained Expression entities.
-/
inductive Expression where
  | objExpr (object : Object)
  | opExpr (operator_type : OperatorType) (entities : List Expression)
deriving Repr

/--
  ReturnStatement: optional expression (null until set_expression is called).
  The parser only ever creates ReturnStatement statements, so the model of a
  Function's statement list carries this type.
-/
structure ReturnStatement where
  expression : Option Expression
deriving Repr

/-- Functions may be defined with different types of return semantics. -/
inductive ReturnType where
  | none
  | value
deriving DecidableEq, Repr

/-- Function: return type, optional return class, parameter Objects, body. -/
structure Function where
  name : String
  return_type : ReturnType
  return_class : Option Class
  object_entities : List Object
  statement_entities : List ReturnStatement
deriving Repr

/-- Package: the top-level entity, containing Classes and Functions. -/
structure Package where
  name : String
  class_entities : List Class
  function_entities : List Function
deriving Repr

/--
  EntityContainer::get — returns the contained entity with the given name, or
  nullptr (none) if no such entity exists: a front-to-back linear scan over the
  ordered entity list with exact string comparison.  A pure function: the
  container is unchanged and no exception can arise.
-/
def EntityContainer.get {α : Type} (name : α → String) : List α → String → Option α
  | [], _ => Option.none
  | entity :: rest, n =>
      if name entity = n then some entity else EntityContainer.get name rest n

/-- Package::get_class. -/
def Package.get_class (p : Package) (n : String) : Option Class :=
  EntityContainer.get Class.name p.class_entities n

/-- Package::get_function. -/
def Package.get_function (p : Package) (n : String) : Option Function :=
  EntityContainer.get Function.name p.function_entities n

/-- Function::get_object. -/
def Function.get_object (f : Function) (n : String) : Option Object :=
  EntityContainer.get Object.name f.object_entities n

/-! ### EntityContainer::add / EntityContainer::remove (src/graph.h)

  add and remove mutate both the container's entity list and the contained
  entities' parent back-references.  To express the back-references, the model
  names entities by numeric identifiers (standing for their addresses) and
  carries the parent pointer of every entity alongside the list:
  `entities_` is the container's ordered list of contained entity ids and
  `parent_ e` is entity e's parent back-reference.
-/

structure EntityContainerState where
  entities_ : List Nat
  parent_ : Nat → Option Nat

/--
  EntityContainer::add — appends the entity to the list and sets its parent
  back-reference to the container (`entity->parent_ = shared_from_this()`),
  where `self` is the container's id.
-/
def EntityContainerState.add (w : EntityContainerState) (self entity : Nat) :
    EntityContainerState :=
  { entities_ := w.entities_ ++ [entity],
    parent_ := fun x => if x = entity then some self else w.parent_ x }

/--
  EntityContainer::remove — `std::find` locates the first occurrence of the
  entity; if found it is erased, and then the C++ writes
  `iterator->parent_ = nullptr` *after* the erase.  Since vector::erase leaves
  the iterator at the element that followed the erased one, that assignment
  clears the parent of the *next* entity (read as `(*iterator)->parent_`; as
  written the member access does not even instantiate), and dereferences the
  end iterator when the erased element was last — modelled here by leaving all
  parents unchanged in that undefined case.
-/
def EntityContainerState.remove (w : EntityContainerState) (entity : Nat) :
    EntityContainerState :=
  if w.entities_.contains entity then
    let i := w.entities_.indexOf entity
    let erased := w.entities_.erase entity
    match erased.get? i with
    | some next =>
        { entities_ := erased,
          parent_ := fun x => if x = next then Option.none else w.parent_ x }
    | Option.none => { entities_ := erased, parent_ := w.parent_ }
  else w

/-! ## Parser (src/parser.h, src/parser.cpp) -/

inductive ParserState where
  | expression_operator
  | expression_value
  | func_params_start
  | func_name
  | func_return_clause
  | func_body
  | func_param
  | func_param_name
  | func_param_or_end
  | func_return_type
  | func_params_next_or_end
  | start
  | statement
deriving DecidableEq, Repr

/--
  Parser state: the fields of class Parser (src/parser.h).  The C++ keeps
  shared_ptr members aliasing entities already inside the package under
  construction: function_ is always the function most recently added to the
  package, object_ (when used for mutation) the object most recently added to
  that function, and return_statement_ the statement most recently added; the
  model therefore represents mutations through those pointers as updates of
  the last element of the corresponding list.  object_expression_ and
  operator_expression_ hold expressions not yet attached to the graph and are
  explicit fields: the object of the pending ObjectExpression, and the
  operator type and operand list of the pending OperatorExpression.
-/
structure Parser where
  tokens_ : List Token
  iterator_ : Nat
  state_ : ParserState
  package_ : Package
  object_expression_ : Option Object
  operator_expression_ : Option (OperatorType × List Expression)

/--
  Parser construction plus the first lines of Parser::run: package "default"
  with the implicit class int already added.
-/
def Parser.init (tokens : List Token) : Parser :=
  ⟨tokens, 0, ParserState.start,
   ⟨"default", [⟨"int"⟩], []⟩, Option.none, Option.none⟩

/--
  `const Token& current_token() const { return *iterator_; }` — valid while
  the iterator is in bounds (guaranteed when the token list ends with an end
  token); out of bounds the C++ behaviour is undefined and the model returns
  a default token.
-/
def Parser.current_token (c : Parser) : Token :=
  c.tokens_.getD c.iterator_ ⟨TokenType.«end», "", 0, 0⟩

/-- Advances the iterator to the next token (no-op on the end token). -/
def Parser.advance_token (c : Parser) : Parser :=
  if c.current_token.type = TokenType.«end» then c
  else { c with iterator_ := c.iterator_ + 1 }

/-- Replaces the function most recently added to the package (the referent of function_). -/
def Parser.setLastFunction (c : Parser) (f : Function) : Parser :=
  { c with package_ :=
      { c.package_ with function_entities := c.package_.function_entities.dropLast ++ [f] } }

/--
  Outcome of Parser::run: the package on success, Parser::fail's diagnostic
  (the offending token, carrying kind, lexeme, line and column) on a parse
  error, and stuck where the C++ would dereference a null shared_ptr — which
  no run starting from Parser.init ever does.
-/
inductive PResult where
  | ok (package : Package)
  | fail (token : Token)
  | stuck
deriving Repr

/-- Result of one iteration of the while-loop of Parser::run. -/
inductive PStep where
  | cont (c : Parser)
  | halt (r : PResult)

/--
  One iteration of the while-loop body of Parser::run (src/parser.cpp).  Each
  state first inspects the current token's type exactly as the C++ switch
  does; the branches that in C++ dereference one of the aliasing shared_ptr
  members (function_, object_, return_statement_, object_expression_) resolve
  that member here — function_ as the function most recently added to the
  package, object_ as its most recently added object, return_statement_ as
  its most recently added statement — and become stuck where the C++ would
  dereference a null pointer (which no run from Parser.init reaches).
-/
def Parser.step (c : Parser) : PStep :=
  match c.state_ with
  | ParserState.start =>
      match c.current_token.type with
      | TokenType.«end» => PStep.halt (PResult.ok c.package_)
      | TokenType.func_keyword =>
          -- function_ = make_shared<Function>(); set_return_type(none); package_->add
          let f : Function := ⟨"", ReturnType.none, Option.none, [], []⟩
          let c := { c with package_ :=
            { c.package_ with function_entities := c.package_.function_entities ++ [f] } }
          PStep.cont ({ c with state_ := ParserState.func_name }).advance_token
      | _ => PStep.halt (PResult.fail c.current_token)
  | ParserState.func_name =>
      match c.current_token.type with
      | TokenType.identifier =>
          match c.package_.function_entities.getLast? with
          | Option.none => PStep.halt PResult.stuck
          | some f =>
              let c := c.setLastFunction { f with name := c.current_token.lexeme }
              PStep.cont ({ c with state_ := ParserState.func_params_start }).advance_token
      | _ => PStep.halt (PResult.fail c.current_token)
  | ParserState.func_params_start =>
      match c.current_token.type with
      | TokenType.left_paren =>
          PStep.cont ({ c with state_ := ParserState.func_param_or_end }).advance_token
      | _ => PStep.halt (PResult.fail c.current_token)
  | ParserState.func_param_or_end =>
      match c.current_token.type with
      | TokenType.right_paren =>
          PStep.cont ({ c with state_ := ParserState.func_return_clause }).advance_token
      | _ => PStep.cont { c with state_ := ParserState.func_param }
  | ParserState.func_param =>
      match c.current_token.type with
      | TokenType.identifier =>
          -- cls_ = package_->get_class(...); if (!cls_) fail();
          match c.package_.get_class c.current_token.lexeme with
          | Option.none => PStep.halt (PResult.fail c.current_token)
          | some cls =>
              -- object_ = make_shared<Object>(); set_cls(cls_); function_->add
              match c.package_.function_entities.getLast? with
              | Option.none => PStep.halt PResult.stuck
              | some f =>
                  let c := c.setLastFunction
                    { f with object_entities := f.object_entities ++ [⟨"", cls⟩] }
                  PStep.cont ({ c with state_ := ParserState.func_param_name }).advance_token
      | _ => PStep.halt (PResult.fail c.current_token)
  | ParserState.func_param_name =>
      match c.current_token.type with
      | TokenType.identifier =>
          match c.package_.function_entities.getLast? with
          | Option.none => PStep.halt PResult.stuck
          | some f =>
              match f.object_entities.getLast? with
              | Option.none => PStep.halt PResult.stuck
              | some o =>
                  let c := c.setLastFunction { f with object_entities :=
                    f.object_entities.dropLast ++ [{ o with name := c.current_token.lexeme }] }
                  PStep.cont
                    ({ c with state_ := ParserState.func_params_next_or_end }).advance_token
      | _ => PStep.halt (PResult.fail c.current_token)
  | ParserState.func_params_next_or_end =>
      match c.current_token.type with
      | TokenType.comma =>
          PStep.cont ({ c with state_ := ParserState.func_param }).advance_token
      | TokenType.right_paren =>
          PStep.cont ({ c with state_ := ParserState.func_return_clause }).advance_token
      | _ => PStep.halt (PResult.fail c.current_token)
  | ParserState.func_return_clause =>
      match c.current_token.type with
      | TokenType.arrow =>
          PStep.cont ({ c with state_ := ParserState.func_return_type }).advance_token
      | _ => PStep.cont { c with state_ := ParserState.func_body }
  | ParserState.func_return_type =>
      match c.current_token.type with
      | TokenType.identifier =>
          -- cls_ = package_->get_class(...); if (!cls_) fail();
          match c.package_.get_class c.current_token.lexeme with
          | Option.none => PStep.halt (PResult.fail c.current_token)
          | some cls =>
              match c.package_.function_entities.getLast? with
              | Option.none => PStep.halt PResult.stuck
              | some f =>
                  let c := c.setLastFunction
                    { f with return_type := ReturnType.value, return_class := some cls }
                  PStep.cont ({ c with state_ := ParserState.func_body }).advance_token
      | _ => PStep.halt (PResult.fail c.current_token)
  | ParserState.func_body =>
      match c.current_token.type with
      | TokenType.left_curly =>
          PStep.cont ({ c with state_ := ParserState.statement }).advance_token
      | _ => PStep.halt (PResult.fail c.current_token)
  | ParserState.statement =>
      match c.current_token.type with
      | TokenType.right_curly =>
          PStep.cont ({ c with state_ := ParserState.start }).advance_token
      | TokenType.return_keyword =>
          -- return_statement_ = make_shared<ReturnStatement>(); function_->add
          match c.package_.function_entities.getLast? with
          | Option.none => PStep.halt PResult.stuck
          | some f =>
              let c := c.setLastFunction
                { f with statement_entities := f.statement_entities ++ [⟨Option.none⟩] }
              PStep.cont ({ c with state_ := ParserState.expression_value }).advance_token
      | _ => PStep.halt (PResult.fail c.current_token)
  | ParserState.expression_value =>
      match c.current_token.type with
      | TokenType.identifier =>
          -- object_ = function_->get_object(...); if (!object_) fail();
          match c.package_.function_entities.getLast? with
          | Option.none => PStep.halt PResult.stuck
          | some f =>
              match f.get_object c.current_token.lexeme with
              | Option.none => PStep.halt (PResult.fail c.current_token)
              | some o =>
                  let c := { c with object_expression_ := some o }
                  PStep.cont ({ c with state_ := ParserState.expression_operator }).advance_token
      | _ => PStep.halt (PResult.fail c.current_token)
  | ParserState.expression_operator =>
      match c.current_token.type with
      | TokenType.semicolon =>
          -- return_statement_->set_expression(...) on the most recent statement
          match c.package_.function_entities.getLast? with
          | Option.none => PStep.halt PResult.stuck
          | some f =>
              match f.statement_entities.getLast? with
              | Option.none => PStep.halt PResult.stuck
              | some _ =>
                  match c.operator_expression_ with
                  | some (t, args) =>
                      match c.object_expression_ with
                      | Option.none => PStep.halt PResult.stuck
                      | some o =>
                          let e := Expression.opExpr t (args ++ [Expression.objExpr o])
                          let c := c.setLastFunction { f with statement_entities :=
                            f.statement_entities.dropLast ++ [⟨some e⟩] }
                          let c := { c with object_expression_ := Option.none,
                                            operator_expression_ := Option.none }
                          PStep.cont ({ c with state_ := ParserState.statement }).advance_token
                  | Option.none =>
                      let c := c.setLastFunction { f with statement_entities :=
                        f.statement_entities.dropLast ++
                          [⟨Option.map Expression.objExpr c.object_expression_⟩] }
                      let c := { c with object_expression_ := Option.none,
                                        operator_expression_ := Option.none }
                      PStep.cont ({ c with state_ := ParserState.statement }).advance_token
      | TokenType.plus =>
          match c.object_expression_ with
          | Option.none => PStep.halt PResult.stuck
          | some o =>
              let newOp : OperatorType × List Expression :=
                match c.operator_expression_ with
                | some (t, args) =>
                    (OperatorType.plus,
                     [Expression.opExpr t (args ++ [Expression.objExpr o])])
                | Option.none => (OperatorType.plus, [Expression.objExpr o])
              let c := { c with operator_expression_ := some newOp,
                                object_expression_ := Option.none }
              PStep.cont ({ c with state_ := ParserState.expression_value }).advance_token
      | _ => PStep.halt (PResult.fail c.current_token)

/--
  Iterating Parser::run's loop body with fuel; none means the loop has not
  finished within the given number of iterations.
-/
def Parser.runFuel : Nat → Parser → Option PResult
  | 0, _ => Option.none
  | n + 1, c =>
      match c.step with
      | PStep.cont c' => Parser.runFuel n c'
      | PStep.halt r => some r

/--
  Iterating Parser::run's loop body a fixed number of iterations, keeping the
  intermediate configuration; none once the loop has exited.
-/
def Parser.iterate : Nat → Parser → Option Parser
  | 0, c => some c
  | n + 1, c =>
      match c.step with
      | PStep.cont c' => Parser.iterate n c'
      | PStep.halt _ => Option.none

/-! ## Translator (src/translator.cpp) -/

/-- translate(OperatorType). -/
def translateOperator : OperatorType → String
  | OperatorType.plus => "+"

mutual

/--
  translate(std::shared_ptr<Expression>) on a non-null expression: an
  OperatorExpression is emitted parenthesized with the operator text between
  consecutive operands; an ObjectExpression emits its Object's name.
-/
def translateExpression : Expression → String
  | Expression.objExpr o => o.name
  | Expression.opExpr t es => "(" ++ translateOperands t es ++ ")"

/-- The operand loop of translate: operator text after every non-last operand. -/
def translateOperands : OperatorType → List Expression → String
  | _, [] => ""
  | _, [e] => translateExpression e
  | t, e :: rest => translateExpression e ++ translateOperator t ++ translateOperands t rest

end

/-- translate(std::shared_ptr<Expression>): a null expression emits nothing. -/
def translateExpressionOpt : Option Expression → String
  | Option.none => ""
  | some e => translateExpression e

/--
  translate(std::shared_ptr<Function>).  With return type value the C++
  dereferences return_class(); a null return class there would be undefined
  behaviour, modelled as emitting nothing for the type name.
-/
def translateFunction (f : Function) : String :=
  (match f.return_type with
   | ReturnType.none => "void "
   | ReturnType.value =>
       match f.return_class with
       | some cl => cl.name ++ " "
       | Option.none => "")
  ++ f.name ++ "("
  ++ String.intercalate ", "
       (f.object_entities.map (fun o => o.cls.name ++ " " ++ o.name))
  ++ ") \x7b\n"
  ++ String.join (f.statement_entities.map
       (fun s => "  " ++ "return " ++ translateExpressionOpt s.expression ++ ";\n"))
  ++ "\x7d\n"

/-- translate(std::shared_ptr<Package>). -/
def translatePackage (p : Package) : String :=
  String.join (p.function_entities.map translateFunction)

/-! ## Properties -/

/-- Projection of a token to its source position. -/
def tokenPos (t : Token) : Nat × Nat := (t.line_number, t.column_number)

/--
  C1 — the source buffer consisting of a raw '&' followed by the null
  sentinel.  In the start state no case of the C++ switch matches '&' and no
  character is consumed, so Lexer::run never terminates on this buffer: the
  loop body maps the initial configuration to itself and no amount of fuel
  produces a token list.
-/
theorem c1_unmatched_char_loops_forever (n : Nat) :
    Lexer.runFuel n (Lexer.init ['&', '\x00']) = Option.none := by
  induction n with
  | zero => rfl
  | succ n ih =>
      have h : Lexer.step (Lexer.init ['&', '\x00']) =
          LStep.cont (Lexer.init ['&', '\x00']) := rfl
      simp only [Lexer.runFuel, h]
      exact ih

/-- The C2 source buffer, with the sentinel terminator appended. -/
def c2source : List Char :=
  "func add(int a, int b) -> int \x7b return a+b; \x7d".data ++ ['\x00']

/-- The token sequence the Lexer produces for the C2 source. -/
def c2tokens : List Token :=
  [⟨TokenType.func_keyword, "func", 1, 1⟩, ⟨TokenType.identifier, "add", 1, 6⟩,
   ⟨TokenType.left_paren, "(", 1, 9⟩, ⟨TokenType.identifier, "int", 1, 10⟩,
   ⟨TokenType.identifier, "a", 1, 14⟩, ⟨TokenType.comma, ",", 1, 15⟩,
   ⟨TokenType.identifier, "int", 1, 17⟩, ⟨TokenType.identifier, "b", 1, 21⟩,
   ⟨TokenType.right_paren, ")", 1, 22⟩, ⟨TokenType.arrow, "->", 1, 24⟩,
   ⟨TokenType.identifier, "int", 1, 27⟩, ⟨TokenType.left_curly, "\x7b", 1, 31⟩,
   ⟨TokenType.return_keyword, "return", 1, 33⟩, ⟨TokenType.identifier, "a", 1, 40⟩,
   ⟨TokenType.plus, "+", 1, 41⟩, ⟨TokenType.identifier, "b", 1, 42⟩,
   ⟨TokenType.semicolon, ";", 1, 43⟩, ⟨TokenType.right_curly, "\x7d", 1, 45⟩,
   ⟨TokenType.«end», "", 1, 46⟩]

/-- The Function the Parser builds for the C2 source. -/
def c2function : Function :=
  ⟨"add", ReturnType.value, some ⟨"int"⟩,
   [⟨"a", ⟨"int"⟩⟩, ⟨"b", ⟨"int"⟩⟩],
   [⟨some (Expression.opExpr OperatorType.plus
      [Expression.objExpr ⟨"a", ⟨"int"⟩⟩, Expression.objExpr ⟨"b", ⟨"int"⟩⟩])⟩]⟩

/-- The Package the Parser builds for the C2 source. -/
def c2package : Package := ⟨"default", [⟨"int"⟩], [c2function]⟩

/--
  C2 — round-trip scenario: the C2 source lexes to exactly the 19-token
  sequence of the claim (ending in the end token), parses to one Package
  holding the implicit int Class and one Function add with return mode value
  of Class int, parameter Objects a:int and b:int in order, and a single
  ReturnStatement whose expression is OperatorExpression(plus) over
  ObjectExpression(a) then ObjectExpression(b); and the Translator emits
  exactly the claimed C text.
-/
theorem c2_round_trip :
    Lexer.runFuel 300 (Lexer.init c2source) = some c2tokens ∧
    c2tokens.map (fun t => (t.type, t.lexeme)) =
      [(TokenType.func_keyword, "func"), (TokenType.identifier, "add"),
       (TokenType.left_paren, "("), (TokenType.identifier, "int"),
       (TokenType.identifier, "a"), (TokenType.comma, ","),
       (TokenType.identifier, "int"), (TokenType.identifier, "b"),
       (TokenType.right_paren, ")"), (TokenType.arrow, "->"),
       (TokenType.identifier, "int"), (TokenType.left_curly, "\x7b"),
       (TokenType.return_keyword, "return"), (TokenType.identifier, "a"),
       (TokenType.plus, "+"), (TokenType.identifier, "b"),
       (TokenType.semicolon, ";"), (TokenType.right_curly, "\x7d"),
       (TokenType.«end», "")] ∧
    Parser.runFuel 300 (Parser.init c2tokens) = some (PResult.ok c2package) ∧
    c2package.class_entities = [⟨"int"⟩] ∧
    c2package.function_entities = [c2function] ∧
    c2function.name = "add" ∧
    c2function.return_type = ReturnType.value ∧
    c2function.return_class = some ⟨"int"⟩ ∧
    c2function.object_entities = [⟨"a", ⟨"int"⟩⟩, ⟨"b", ⟨"int"⟩⟩] ∧
    c2function.statement_entities = [⟨some (Expression.opExpr OperatorType.plus
      [Expression.objExpr ⟨"a", ⟨"int"⟩⟩, Expression.objExpr ⟨"b", ⟨"int"⟩⟩])⟩] ∧
    translateFunction c2function = "int add(int a, int b) \x7b\n  return (a+b);\n\x7d\n" ∧
    translatePackage c2package = "int add(int a, int b) \x7b\n  return (a+b);\n\x7d\n" :=
  ⟨by decide, by decide, rfl, rfl, rfl, rfl, rfl, rfl, rfl, rfl,
   by decide, by decide⟩

/--
  C3 — evaluation of EntityContainer::add and EntityContainer::remove at the
  failing input: a container (id 0) to which entities 1 and 2 were added in
  order.  add behaves as claimed (the added entity is at the end of the list
  and its back-reference is set to the container), but remove 1 leaves entity
  1's back-reference set to the container and instead clears entity 2's.
-/
theorem c3_remove_clears_wrong_parent :
    ((⟨[], fun _ => Option.none⟩ : EntityContainerState).add 0 1).entities_ = [1] ∧
    ((⟨[], fun _ => Option.none⟩ : EntityContainerState).add 0 1).parent_ 1 = some 0 ∧
    (((⟨[], fun _ => Option.none⟩ : EntityContainerState).add 0 1).add 0 2).entities_
      = [1, 2] ∧
    (((⟨[], fun _ => Option.none⟩ : EntityContainerState).add 0 1).add 0 2).parent_ 2
      = some 0 ∧
    ((((⟨[], fun _ => Option.none⟩ : EntityContainerState).add 0 1).add 0 2).remove
        1).entities_ = [2] ∧
    ((((⟨[], fun _ => Option.none⟩ : EntityContainerState).add 0 1).add 0 2).remove
        1).parent_ 1 = some 0 ∧
    ((((⟨[], fun _ => Option.none⟩ : EntityContainerState).add 0 1).add 0 2).remove
        1).parent_ 2 = Option.none :=
  ⟨rfl, rfl, rfl, rfl, by decide, by decide, by decide⟩

/-- Token list of `func f(int a) \x7b return a; \x7d` (positions immaterial). -/
def c4cexTokens : List Token :=
  [⟨TokenType.func_keyword, "func", 1, 1⟩, ⟨TokenType.identifier, "f", 1, 6⟩,
   ⟨TokenType.left_paren, "(", 1, 7⟩, ⟨TokenType.identifier, "int", 1, 8⟩,
   ⟨TokenType.identifier, "a", 1, 12⟩, ⟨TokenType.right_paren, ")", 1, 13⟩,
   ⟨TokenType.left_curly, "\x7b", 1, 15⟩, ⟨TokenType.return_keyword, "return", 1, 17⟩,
   ⟨TokenType.identifier, "a", 1, 24⟩, ⟨TokenType.semicolon, ";", 1, 25⟩,
   ⟨TokenType.right_curly, "\x7d", 1, 27⟩, ⟨TokenType.«end», "", 1, 28⟩]

/-- The Package the Parser builds for the C4 counterexample tokens. -/
def c4cexPackage : Package :=
  ⟨"default", [⟨"int"⟩],
   [⟨"f", ReturnType.none, Option.none, [⟨"a", ⟨"int"⟩⟩],
     [⟨some (Expression.objExpr ⟨"a", ⟨"int"⟩⟩)⟩]⟩]⟩

/--
  C4 counterexample — a successful Parser::run whose resulting Function has
  return mode none and yet contains a ReturnStatement carrying a value
  expression: the parser accepts `func f(int a) \x7b return a; \x7d`.
-/
theorem c4_counterexample :
    Parser.runFuel 100 (Parser.init c4cexTokens) = some (PResult.ok c4cexPackage) ∧
    (∀ f, c4cexPackage.function_entities = [f] →
      f.return_type = ReturnType.none ∧
      f.statement_entities = [⟨some (Expression.objExpr ⟨"a", ⟨"int"⟩⟩)⟩] ∧
      f.statement_entities.all (fun s => s.expression.isSome)) := by
  refine ⟨rfl, ?_⟩
  intro f hf
  obtain rfl : (⟨"f", ReturnType.none, Option.none, [⟨"a", ⟨"int"⟩⟩],
     [⟨some (Expression.objExpr ⟨"a", ⟨"int"⟩⟩)⟩]⟩ : Function) = f := by
    injection hf with h1 h2
  exact ⟨rfl, rfl, rfl⟩

/-- Token list of `func f(int a, int b, int c) \x7b return a+b+c; \x7d`. -/
def c5tokens : List Token :=
  [⟨TokenType.func_keyword, "func", 1, 1⟩, ⟨TokenType.identifier, "f", 1, 6⟩,
   ⟨TokenType.left_paren, "(", 1, 7⟩, ⟨TokenType.identifier, "int", 1, 8⟩,
   ⟨TokenType.identifier, "a", 1, 12⟩, ⟨TokenType.comma, ",", 1, 13⟩,
   ⟨TokenType.identifier, "int", 1, 15⟩, ⟨TokenType.identifier, "b", 1, 19⟩,
   ⟨TokenType.comma, ",", 1, 20⟩, ⟨TokenType.identifier, "int", 1, 22⟩,
   ⟨TokenType.identifier, "c", 1, 26⟩, ⟨TokenType.right_paren, ")", 1, 27⟩,
   ⟨TokenType.left_curly, "\x7b", 1, 29⟩, ⟨TokenType.return_keyword, "return", 1, 31⟩,
   ⟨TokenType.identifier, "a", 1, 38⟩, ⟨TokenType.plus, "+", 1, 39⟩,
   ⟨TokenType.identifier, "b", 1, 40⟩, ⟨TokenType.plus, "+", 1, 41⟩,
   ⟨TokenType.identifier, "c", 1, 42⟩, ⟨TokenType.semicolon, ";", 1, 43⟩,
   ⟨TokenType.right_curly, "\x7d", 1, 45⟩, ⟨TokenType.«end», "", 1, 46⟩]

/-- The Package the Parser builds for the C5 tokens: left-nested plus. -/
def c5package : Package :=
  ⟨"default", [⟨"int"⟩],
   [⟨"f", ReturnType.none, Option.none,
     [⟨"a", ⟨"int"⟩⟩, ⟨"b", ⟨"int"⟩⟩, ⟨"c", ⟨"int"⟩⟩],
     [⟨some (Expression.opExpr OperatorType.plus
        [Expression.opExpr OperatorType.plus
          [Expression.objExpr ⟨"a", ⟨"int"⟩⟩, Expression.objExpr ⟨"b", ⟨"int"⟩⟩],
         Expression.objExpr ⟨"c", ⟨"int"⟩⟩])⟩]⟩]⟩

/--
  C5 — parsing `return a+b+c;` inside a function whose object list contains
  a, b, c yields a ReturnStatement whose expression is left-nested
  plus(plus(a,b), c): the outer OperatorExpression has exactly two operands,
  the first itself an OperatorExpression over a and b, the second c — not a
  flat 3-ary node.
-/
theorem c5_left_associativity :
    Parser.runFuel 100 (Parser.init c5tokens) = some (PResult.ok c5package) ∧
    (∀ f, c5package.function_entities = [f] →
      f.object_entities = [⟨"a", ⟨"int"⟩⟩, ⟨"b", ⟨"int"⟩⟩, ⟨"c", ⟨"int"⟩⟩] ∧
      f.statement_entities =
        [⟨some (Expression.opExpr OperatorType.plus
          [Expression.opExpr OperatorType.plus
            [Expression.objExpr ⟨"a", ⟨"int"⟩⟩, Expression.objExpr ⟨"b", ⟨"int"⟩⟩],
           Expression.objExpr ⟨"c", ⟨"int"⟩⟩])⟩]) := by
  refine ⟨rfl, ?_⟩
  intro f hf
  obtain rfl : (c5package.function_entities.getD 0
      ⟨"", ReturnType.none, Option.none, [], []⟩) = f := by
    rw [hf]; rfl
  exact ⟨rfl, rfl⟩

/--
  C8 counterexample — the claimed formula fails for the net effect of
  consuming a tab: at current column 1 with tab width 2 (the default) the
  claim predicts column (1 + 2) / 2 * 2 = 2, but the code (advance_char,
  then advance_tab) yields column 4.
-/
theorem c8_counterexample :
    Lexer.step (Lexer.init ['\t', 'a', '\x00']) =
      LStep.cont { Lexer.init ['\t', 'a', '\x00'] with index_ := 1, column_number_ := 4 } ∧
    ¬ (4 : Nat) = (1 + 2) / 2 * 2 :=
  ⟨rfl, by decide⟩

/--
  C8 (amended) — consuming a tab from the start state first advances the
  character, incrementing the column from C to C + 1, and then applies
  advance_tab, so the column becomes ((C + 1) + W) / W * W with integer
  division, for every configured tab width W alike; advance_tab by itself
  maps its current column C to (C + W) / W * W.
-/
theorem c8_tab_advance (c : Lexer) (h : c.state_ = LexerState.start)
    (ht : c.current_char = '\t') (hidx : c.index_ + 1 < c.source_.length) :
    Lexer.step c = LStep.cont c.start_lexeme.advance_char.advance_tab ∧
    c.start_lexeme.advance_char.advance_tab.column_number_ =
      (c.column_number_ + 1 + c.columns_per_tab_) / c.columns_per_tab_ *
        c.columns_per_tab_ ∧
    c.advance_tab.column_number_ =
      (c.column_number_ + c.columns_per_tab_) / c.columns_per_tab_ *
        c.columns_per_tab_ := by
  have hcur : c.start_lexeme.current_char = '\t' := ht
  have hne : ¬ c.start_lexeme.index_ = c.start_lexeme.source_.length - 1 := by
    simp only [Lexer.start_lexeme]
    omega
  refine ⟨?_, ?_, ?_⟩
  · simp only [Lexer.step, hcur, h]
    rfl
  · rw [Lexer.advance_char, if_neg hne]
    rfl
  · rfl

/--
  C8 witness — the amended tab rule evaluated on a concrete lexer
  configuration: tab at column 1, width 2, yielding column (1+1+2)/2*2 = 4.
-/
theorem c8_tab_advance_witness :
    Lexer.step (Lexer.init ['\t', 'a', '\x00']) =
      LStep.cont (Lexer.init ['\t', 'a', '\x00']).start_lexeme.advance_char.advance_tab ∧
    (Lexer.init ['\t', 'a', '\x00']).start_lexeme.advance_char.advance_tab.column_number_ =
      (1 + 1 + 2) / 2 * 2 ∧
    (Lexer.init ['\t', 'a', '\x00']).advance_tab.column_number_ = (1 + 2) / 2 * 2 :=
  c8_tab_advance (Lexer.init ['\t', 'a', '\x00']) rfl rfl (by decide)

/--
  C9 — EntityContainer::get scans the ordered entity list front to back and
  returns the first entity whose name is an exact string match: it returns
  none exactly when no contained entity matches (it never throws), and any
  returned entity matches the query and occupies a position strictly before
  which no entity matches.  The lookup is a pure function, so the container
  is unchanged by it.
-/
theorem c9_entity_container_get {α : Type} (name : α → String)
    (l : List α) (n : String) :
    (EntityContainer.get name l n = Option.none ↔ ∀ e ∈ l, name e ≠ n) ∧
    (∀ e, EntityContainer.get name l n = some e →
      name e = n ∧ ∃ i, ∃ h : i < l.length, l.get ⟨i, h⟩ = e ∧
        ∀ j, ∀ hj : j < l.length, j < i → name (l.get ⟨j, hj⟩) ≠ n) := by
  induction l with
  | nil =>
      refine ⟨⟨fun _ e he => absurd he (List.not_mem_nil e), fun _ => rfl⟩, ?_⟩
      intro e he
      simp [EntityContainer.get] at he
  | cons a rest ih =>
      by_cases ha : name a = n
      · refine ⟨⟨fun h => ?_, fun h => absurd ha (h a (List.mem_cons_self a rest))⟩, ?_⟩
        · rw [EntityContainer.get, if_pos ha] at h
          exact absurd h (by simp)
        · intro e he
          rw [EntityContainer.get, if_pos ha] at he
          obtain rfl : a = e := by injection he
          refine ⟨ha, 0, by simp, rfl, ?_⟩
          intro j hj hj0
          omega
      · refine ⟨?_, ?_⟩
        · rw [EntityContainer.get, if_neg ha]
          constructor
          · intro h e he
            rcases List.mem_cons.mp he with rfl | hr
            · exact ha
            · exact ih.1.mp h e hr
          · intro h
            exact ih.1.mpr (fun e he => h e (List.mem_cons_of_mem a he))
        · intro e he
          rw [EntityContainer.get, if_neg ha] at he
          obtain ⟨hn, i, hi, hget, hfirst⟩ := ih.2 e he
          refine ⟨hn, i + 1, by simpa using Nat.succ_lt_succ hi, by simpa using hget, ?_⟩
          intro j hj hlt
          cases j with
          | zero => simpa using ha
          | succ j' =>
              have hj' : j' < rest.length := by
                simpa using Nat.lt_of_succ_lt_succ hj
              have := hfirst j' hj' (Nat.lt_of_succ_lt_succ hlt)
              simpa using this

/--
  C9 witness — the lookup evaluated on a concrete container: a class list
  holding only the class int returns none for the absent name "x", and
  returns the first (and only) matching entity for "int".
-/
theorem c9_entity_container_get_witness :
    EntityContainer.get Class.name [Class.mk "int"] "x" = Option.none ∧
    (Class.name (Class.mk "int") = "int" ∧
      ∃ i, ∃ h : i < [Class.mk "int"].length,
        [Class.mk "int"].get ⟨i, h⟩ = Class.mk "int" ∧
        ∀ j, ∀ hj : j < [Class.mk "int"].length, j < i →
          Class.name ([Class.mk "int"].get ⟨j, hj⟩) ≠ "int") :=
  ⟨(c9_entity_container_get Class.name [Class.mk "int"] "x").1.mpr (by decide),
   (c9_entity_container_get Class.name [Class.mk "int"] "int").2 (Class.mk "int") rfl⟩

/--
  C6 — whenever the parser reads a parameter whose class name does not
  resolve in the Package's class list, or an identifier in a return
  expression that does not resolve in the current Function's object list,
  Parser::run fails at once: the step halts with the single unrecoverable
  error carrying the offending token (its kind, lexeme, line and column), no
  package — not even a partial one — is produced, and no further token is
  consumed.
-/
theorem c6_unresolved_name_fails (c : Parser) (tok : Token)
    (htok : c.current_token = tok) (hid : tok.type = TokenType.identifier) :
    (c.state_ = ParserState.func_param →
      c.package_.get_class tok.lexeme = Option.none →
      Parser.step c = PStep.halt (PResult.fail tok)) ∧
    (∀ f, c.state_ = ParserState.expression_value →
      c.package_.function_entities.getLast? = some f →
      f.get_object tok.lexeme = Option.none →
      Parser.step c = PStep.halt (PResult.fail tok)) := by
  subst htok
  constructor
  · intro hs hc
    simp only [Parser.step, hs, hid, hc]
  · intro f hs hf ho
    simp only [Parser.step, hs, hid, hf, ho]

/--
  C6 witness — both failure modes evaluated on concrete parser
  configurations: an unknown parameter class name "bogus", and an unknown
  object name "x" in a return expression.
-/
theorem c6_unresolved_name_fails_witness :
    Parser.step
      ⟨[⟨TokenType.identifier, "bogus", 1, 9⟩], 0, ParserState.func_param,
       ⟨"default", [⟨"int"⟩], [⟨"", ReturnType.none, Option.none, [], []⟩]⟩,
       Option.none, Option.none⟩ =
      PStep.halt (PResult.fail ⟨TokenType.identifier, "bogus", 1, 9⟩) ∧
    Parser.step
      ⟨[⟨TokenType.identifier, "x", 2, 10⟩], 0, ParserState.expression_value,
       ⟨"default", [⟨"int"⟩],
        [⟨"f", ReturnType.none, Option.none, [], [⟨Option.none⟩]⟩]⟩,
       Option.none, Option.none⟩ =
      PStep.halt (PResult.fail ⟨TokenType.identifier, "x", 2, 10⟩) :=
  ⟨(c6_unresolved_name_fails
      ⟨[⟨TokenType.identifier, "bogus", 1, 9⟩], 0, ParserState.func_param,
       ⟨"default", [⟨"int"⟩], [⟨"", ReturnType.none, Option.none, [], []⟩]⟩,
       Option.none, Option.none⟩
      ⟨TokenType.identifier, "bogus", 1, 9⟩ rfl rfl).1 rfl rfl,
   (c6_unresolved_name_fails
      ⟨[⟨TokenType.identifier, "x", 2, 10⟩], 0, ParserState.expression_value,
       ⟨"default", [⟨"int"⟩],
        [⟨"f", ReturnType.none, Option.none, [], [⟨Option.none⟩]⟩]⟩,
       Option.none, Option.none⟩
      ⟨TokenType.identifier, "x", 2, 10⟩ rfl rfl).2
     ⟨"f", ReturnType.none, Option.none, [], [⟨Option.none⟩]⟩ rfl rfl rfl⟩

/-! ### C4 — return-mode invariant of parsed packages -/

/--
  The return-mode/return-class discipline of a Function relative to the class
  list of its Package: return mode none carries no return class; return mode
  value carries a class resolved in the package's class list.
-/
def RTInv (cls : List Class) (f : Function) : Prop :=
  (f.return_type = ReturnType.none → f.return_class = Option.none) ∧
  (f.return_type = ReturnType.value →
    ∃ cl, f.return_class = some cl ∧ cl ∈ cls)

/-- The invariant over all functions of a package. -/
def PkgInv (p : Package) : Prop :=
  ∀ f ∈ p.function_entities, RTInv p.class_entities f

/-- EntityContainer::get only returns entities of the container. -/
theorem EntityContainer.get_mem {α : Type} (name : α → String)
    (l : List α) (n : String) (e : α)
    (h : EntityContainer.get name l n = some e) : e ∈ l := by
  induction l with
  | nil => simp [EntityContainer.get] at h
  | cons a rest ih =>
      by_cases ha : name a = n
      · rw [EntityContainer.get, if_pos ha] at h
        injection h with h
        exact h ▸ List.mem_cons_self a rest
      · rw [EntityContainer.get, if_neg ha] at h
        exact List.mem_cons_of_mem a (ih h)

/-- Package::get_class only returns classes of the package's class list. -/
theorem Package.get_class_mem (p : Package) (n : String) (cl : Class)
    (h : p.get_class n = some cl) : cl ∈ p.class_entities :=
  EntityContainer.get_mem Class.name p.class_entities n cl h

/-- Parser::advance_token does not change the package under construction. -/
theorem Parser.advance_token_package (c : Parser) :
    c.advance_token.package_ = c.package_ := by
  unfold Parser.advance_token
  split <;> rfl

/-- Parser::advance_token does not change the token list. -/
theorem Parser.advance_token_tokens (c : Parser) :
    c.advance_token.tokens_ = c.tokens_ := by
  unfold Parser.advance_token
  split <;> rfl

/-- Replacing the most recently added function preserves the invariant if the
  replacement preserves the return-mode discipline. -/
theorem PkgInv.setLastFunction {c : Parser} {f f' : Function}
    (hf : c.package_.function_entities.getLast? = some f)
    (hinv : PkgInv c.package_)
    (hpres : RTInv c.package_.class_entities f → RTInv c.package_.class_entities f') :
    PkgInv (c.setLastFunction f').package_ := by
  intro g hg
  have hsplit : c.setLastFunction f' =
      { c with package_ := { c.package_ with function_entities :=
          c.package_.function_entities.dropLast ++ [f'] } } := rfl
  rw [hsplit] at hg
  rcases List.mem_append.mp hg with hgd | hgf
  · exact hinv g (List.mem_of_mem_dropLast hgd)
  · have : g = f' := by simpa using hgf
    subst this
    refine hpres (hinv f ?_)
    have := List.dropLast_append_getLast? f (by simpa using hf)
    rw [← this]
    exact List.mem_append_right _ (List.mem_singleton_self f)

/-- Appending a freshly constructed function preserves the invariant. -/
theorem PkgInv.addFunction {p : Package}
    (hinv : PkgInv p) :
    PkgInv { p with function_entities :=
      p.function_entities ++ [⟨"", ReturnType.none, Option.none, [], []⟩] } := by
  intro g hg
  rcases List.mem_append.mp hg with hgd | hgf
  · exact hinv g hgd
  · have : g = ⟨"", ReturnType.none, Option.none, [], []⟩ := by simpa using hgf
    subst this
    exact ⟨fun _ => rfl, fun h => nomatch h⟩

/-- One parser step preserves the package invariant. -/
theorem Parser.step_preserves_inv {c c' : Parser}
    (hstep : Parser.step c = PStep.cont c') (hinv : PkgInv c.package_) :
    PkgInv c'.package_ := by
  simp only [Parser.step] at hstep
  repeat' split at hstep
  all_goals first
    | (injection hstep with hstep2
       subst hstep2
       first
        | exact hinv
        | (rw [Parser.advance_token_package]; dsimp only; exact hinv)
        | (rw [Parser.advance_token_package]
           dsimp only
           refine PkgInv.setLastFunction (by assumption) hinv ?_
           exact fun h => h)
        | (rw [Parser.advance_token_package]
           dsimp only
           exact PkgInv.addFunction hinv)
        | (rw [Parser.advance_token_package]
           dsimp only
           refine PkgInv.setLastFunction (by assumption) hinv ?_
           intro _
           constructor
           · intro hco
             exact ReturnType.noConfusion hco
           · intro _
             exact ⟨_, rfl, Package.get_class_mem _ _ _ (by assumption)⟩))
    | (injection hstep)

/-- The only successful exit of the parser loop returns the package under
  construction. -/
theorem Parser.step_halt_ok {c : Parser} {pkg : Package}
    (hstep : Parser.step c = PStep.halt (PResult.ok pkg)) : pkg = c.package_ := by
  simp only [Parser.step] at hstep
  repeat' split at hstep
  all_goals simp_all

/-- The package invariant holds for every package a fueled parser run returns. -/
theorem Parser.runFuel_inv (n : Nat) :
    ∀ c pkg, Parser.runFuel n c = some (PResult.ok pkg) →
      PkgInv c.package_ → PkgInv pkg := by
  induction n with
  | zero => intro c pkg h _; exact nomatch h
  | succ n ih =>
      intro c pkg h hinv
      rw [Parser.runFuel] at h
      cases hs : Parser.step c with
      | cont c' =>
          rw [hs] at h
          exact ih c' pkg h (Parser.step_preserves_inv hs hinv)
      | halt r =>
          rw [hs] at h
          injection h with h
          subst h
          rw [Parser.step_halt_ok hs]
          exact hinv

/--
  C4 (amended) — every Package returned by a successful Parser::run satisfies:
  every Function with return mode none holds no return-Class reference, and
  every Function with return mode value holds a non-null return-Class
  reference denoting a class of the Package's class list.  (A ReturnStatement
  of a return-mode-none Function may still carry a value expression, as the
  counterexample shows.)
-/
theorem c4_return_mode_invariant (ts : List Token) (n : Nat) (pkg : Package)
    (h : Parser.runFuel n (Parser.init ts) = some (PResult.ok pkg)) :
    ∀ f ∈ pkg.function_entities,
      (f.return_type = ReturnType.none → f.return_class = Option.none) ∧
      (f.return_type = ReturnType.value →
        ∃ cl, f.return_class = some cl ∧ cl ∈ pkg.class_entities) :=
  Parser.runFuel_inv n (Parser.init ts) pkg h (fun _ hf => nomatch hf)

/-- Token list of `func noop() \x7b \x7d`. -/
def noopTokens : List Token :=
  [⟨TokenType.func_keyword, "func", 1, 1⟩, ⟨TokenType.identifier, "noop", 1, 6⟩,
   ⟨TokenType.left_paren, "(", 1, 10⟩, ⟨TokenType.right_paren, ")", 1, 11⟩,
   ⟨TokenType.left_curly, "\x7b", 1, 13⟩, ⟨TokenType.right_curly, "\x7d", 1, 15⟩,
   ⟨TokenType.«end», "", 1, 16⟩]

/-- The function the parser builds for the noop source. -/
def noopFunction : Function := ⟨"noop", ReturnType.none, Option.none, [], []⟩

/--
  C4 witness — the amended invariant applied to the concrete successful parse
  of `func noop() \x7b \x7d`.
-/
theorem c4_return_mode_invariant_witness :
    (noopFunction.return_type = ReturnType.none →
      noopFunction.return_class = Option.none) ∧
    (noopFunction.return_type = ReturnType.value →
      ∃ cl, noopFunction.return_class = some cl ∧
        cl ∈ (⟨"default", [⟨"int"⟩], [noopFunction]⟩ : Package).class_entities) :=
  c4_return_mode_invariant noopTokens 50 ⟨"default", [⟨"int"⟩], [noopFunction]⟩
    rfl noopFunction (List.mem_singleton_self noopFunction)

/-! ### C10 — the parser never reads beyond the token list -/

/--
  From the current iterator position an end token is still ahead (at or after
  the iterator, inside the token list).
-/
def EndReachable (c : Parser) : Prop :=
  ∃ j, c.iterator_ ≤ j ∧ ∃ tok, c.tokens_[j]? = some tok ∧
    tok.type = TokenType.«end»

/-- advance_token keeps an end token ahead: it is a no-op on the end token
  and otherwise strictly below the position of the end token ahead. -/
theorem Parser.advance_token_reachable (c : Parser) (h : EndReachable c) :
    EndReachable c.advance_token := by
  obtain ⟨j, hij, tok, hj, htok⟩ := h
  unfold Parser.advance_token
  split
  · exact ⟨j, hij, tok, hj, htok⟩
  · refine ⟨j, ?_, tok, hj, htok⟩
    rcases Nat.eq_or_lt_of_le hij with rfl | hlt
    · exfalso
      have hcur : c.current_token = tok := by
        unfold Parser.current_token
        rw [List.getD_eq_getElem?_getD, hj]
        rfl
      rename_i hne
      exact hne (hcur ▸ htok)
    · exact hlt

/-- One parser step keeps an end token ahead and never changes the token
  list: every branch either leaves the iterator alone or calls
  advance_token. -/
theorem Parser.step_cont_reachable {c c' : Parser}
    (hstep : Parser.step c = PStep.cont c') (h : EndReachable c) :
    EndReachable c' ∧ c'.tokens_ = c.tokens_ := by
  simp only [Parser.step] at hstep
  repeat' split at hstep
  all_goals first
    | (injection hstep with hstep2
       subst hstep2
       first
        | exact ⟨h, rfl⟩
        | exact ⟨Parser.advance_token_reachable _ h, Parser.advance_token_tokens _⟩)
    | (injection hstep)

/-- Iterating the parser loop keeps an end token ahead and the token list
  unchanged. -/
theorem Parser.iterate_reachable (n : Nat) :
    ∀ c c', Parser.iterate n c = some c' → EndReachable c →
      EndReachable c' ∧ c'.tokens_ = c.tokens_ := by
  induction n with
  | zero =>
      intro c c' h hr
      injection h with h
      subst h
      exact ⟨hr, rfl⟩
  | succ n ih =>
      intro c c' h hr
      rw [Parser.iterate] at h
      cases hs : Parser.step c with
      | cont c1 =>
          rw [hs] at h
          obtain ⟨h1, h2⟩ := ih c1 c' h (Parser.step_cont_reachable hs hr).1
          exact ⟨h1, h2.trans (Parser.step_cont_reachable hs hr).2⟩
      | halt r =>
          rw [hs] at h
          exact nomatch h

/--
  C10 — for every token list whose final element is of type end (as the
  Lexer guarantees), the parser never reads beyond the list: advance_token
  is a no-op once the current token is the end token, so after any number of
  loop iterations the token list is unchanged and the iterator still denotes
  an element of the original list.
-/
theorem c10_parser_never_reads_past_end (ts : List Token) (t : Token)
    (hlast : ts.getLast? = some t) (hend : t.type = TokenType.«end»)
    (n : Nat) (c' : Parser) (h : Parser.iterate n (Parser.init ts) = some c') :
    c'.tokens_ = ts ∧ c'.iterator_ < ts.length := by
  have hr0 : EndReachable (Parser.init ts) := by
    refine ⟨ts.length - 1, Nat.zero_le _, t, ?_, hend⟩
    show ts[ts.length - 1]? = some t
    rw [← List.getLast?_eq_getElem?]
    exact hlast
  obtain ⟨hr, htoks0⟩ := Parser.iterate_reachable n (Parser.init ts) c' h hr0
  have htoks : c'.tokens_ = ts := htoks0
  refine ⟨htoks, ?_⟩
  obtain ⟨j, hij, tok, hj, _⟩ := hr
  have hlt : j < c'.tokens_.length := (List.getElem?_eq_some_iff.mp hj).1
  rw [htoks] at hlt
  omega

/--
  C10 witness — the bound evaluated on the concrete one-token list holding
  only the end token, after zero iterations.
-/
theorem c10_parser_never_reads_past_end_witness :
    (Parser.init [⟨TokenType.«end», "", 1, 1⟩]).tokens_ =
      [⟨TokenType.«end», "", 1, 1⟩] ∧
    (Parser.init [⟨TokenType.«end», "", 1, 1⟩]).iterator_ <
      [(⟨TokenType.«end», "", 1, 1⟩ : Token)].length :=
  c10_parser_never_reads_past_end [⟨TokenType.«end», "", 1, 1⟩]
    ⟨TokenType.«end», "", 1, 1⟩ rfl rfl 0 (Parser.init [⟨TokenType.«end», "", 1, 1⟩]) rfl

/-! ### C7 — line-ending invariance of token positions -/

/-- The input characters the lexer has not yet reached. -/
def Lexer.rem (c : Lexer) : List Char := c.source_.drop c.index_

/-- A line break written as a lone carriage return. -/
def crSep : List Char := ['\r']

/-- A line break written as a lone line feed. -/
def lfSep : List Char := ['\n']

/-- A line break written as carriage return followed by line feed. -/
def crlfSep : List Char := ['\r', '\n']

/-- The three line-break encodings the lexer tolerates. -/
def isBreakSep (s : List Char) : Prop := s = crSep ∨ s = lfSep ∨ s = crlfSep

/--
  Two renderings of the same logical text: equal up to each line break being
  written as s₁ on the left and s₂ on the right, with the null sentinel
  terminating both, ordinary characters (never CR, LF or NUL) matching
  one-for-one.
-/
inductive StrRel (s₁ s₂ : List Char) : List Char → List Char → Prop where
  | nul : StrRel s₁ s₂ ['\x00'] ['\x00']
  | ch {a : Char} {t₁ t₂ : List Char} :
      a ≠ '\r' → a ≠ '\n' → a ≠ '\x00' →
      StrRel s₁ s₂ t₁ t₂ → StrRel s₁ s₂ (a :: t₁) (a :: t₂)
  | brk {t₁ t₂ : List Char} :
      StrRel s₁ s₂ t₁ t₂ → StrRel s₁ s₂ (s₁ ++ t₁) (s₂ ++ t₂)

/--
  Rendering a logical text (a list of lines) with the given line-break
  encoding between consecutive lines and the null sentinel appended.
-/
def renderText (sep : List Char) : List (List Char) → List Char
  | [] => ['\x00']
  | [l] => l ++ ['\x00']
  | l :: ls => l ++ sep ++ renderText sep ls

/--
  Iterating Lexer::run's loop body a fixed number of iterations, keeping the
  intermediate configuration; none once the loop has exited.
-/
def Lexer.iterate : Nat → Lexer → Option Lexer
  | 0, c => some c
  | n + 1, c =>
      match c.step with
      | LStep.cont c' => Lexer.iterate n c'
      | LStep.halt _ => Option.none

/--
  The two lexer configurations agree on everything token positions are made
  of: current line and column, pending lexeme start line and column, tab
  width, and the positions of all tokens produced so far.
-/
structure PosSim (c₁ c₂ : Lexer) : Prop where
  line_eq : c₁.line_number_ = c₂.line_number_
  col_eq : c₁.column_number_ = c₂.column_number_
  sline_eq : c₁.start_line_number_ = c₂.start_line_number_
  scol_eq : c₁.start_column_number_ = c₂.start_column_number_
  tab_eq : c₁.columns_per_tab_ = c₂.columns_per_tab_
  pos_eq : c₁.tokens_.map tokenPos = c₂.tokens_.map tokenPos

/--
  Simulation relation between a run over the s₁-rendering and a run over the
  s₂-rendering of one logical text: same state (never in the middle of a
  CR/CRLF resolution), position-equivalent, remaining inputs renderings of
  the same logical remainder.
-/
structure LexSim (s₁ s₂ : List Char) (c₁ c₂ : Lexer) : Prop where
  state_eq : c₁.state_ = c₂.state_
  not_cr : c₁.state_ ≠ LexerState.cr_or_crlf
  not_mlc_cr : c₁.state_ ≠ LexerState.multi_line_comment_cr_or_crlf
  pos : PosSim c₁ c₂
  rel : StrRel s₁ s₂ c₁.rem c₂.rem

theorem StrRel.left_ne_nil {s₁ s₂ u v : List Char} (h : StrRel s₁ s₂ u v)
    (hs₁ : isBreakSep s₁) : u ≠ [] := by
  cases h with
  | nul => simp
  | ch _ _ _ _ => simp
  | brk _ =>
      rcases hs₁ with h | h | h <;> subst h <;> simp [crSep, lfSep, crlfSep]

theorem StrRel.right_ne_nil {s₁ s₂ u v : List Char} (h : StrRel s₁ s₂ u v)
    (hs₂ : isBreakSep s₂) : v ≠ [] := by
  cases h with
  | nul => simp
  | ch _ _ _ _ => simp
  | brk _ =>
      rcases hs₂ with h | h | h <;> subst h <;> simp [crSep, lfSep, crlfSep]

/-- After a CR-only or CRLF break, the next character is never a bare LF. -/
theorem StrRel.head_ne_lf {s₁ s₂ u v : List Char} (h : StrRel s₁ s₂ u v)
    (hs₁ : s₁ = crSep ∨ s₁ = crlfSep) : u.headD '\x00' ≠ '\n' := by
  cases h with
  | nul => simp
  | ch ha1 ha2 ha3 _ => simpa using ha2
  | brk _ =>
      rcases hs₁ with h | h <;> subst h <;> simp [crSep, crlfSep]

/-- Mirror image of head_ne_lf for the right-hand rendering. -/
theorem StrRel.head_ne_lf_right {s₁ s₂ u v : List Char} (h : StrRel s₁ s₂ u v)
    (hs₂ : s₂ = crSep ∨ s₂ = crlfSep) : v.headD '\x00' ≠ '\n' := by
  cases h with
  | nul => simp
  | ch ha1 ha2 ha3 _ => simpa using ha2
  | brk _ =>
      rcases hs₂ with h | h <;> subst h <;> simp [crSep, crlfSep]

theorem Lexer.rem_ne_nil_index_lt {c : Lexer} (h : c.rem ≠ []) :
    c.index_ < c.source_.length := by
  by_contra hc
  exact h (List.drop_eq_nil_of_le (Nat.le_of_not_lt hc))

theorem getD_eq_headD_drop {α : Type} (l : List α) (n : Nat) (d : α) :
    l.getD n d = (l.drop n).headD d := by
  induction l generalizing n with
  | nil => cases n <;> rfl
  | cons a t ih =>
      cases n with
      | zero => rfl
      | succ m => simpa using ih m

theorem Lexer.current_char_of_rem {c : Lexer} {a : Char} {t : List Char}
    (h : c.rem = a :: t) : c.current_char = a := by
  have h0 : c.current_char = c.rem.headD '\x00' :=
    getD_eq_headD_drop c.source_ c.index_ '\x00'
  rw [h0, h]
  rfl

/-- The length of the unread input. -/
theorem Lexer.rem_length (c : Lexer) : c.rem.length = c.source_.length - c.index_ :=
  List.length_drop c.index_ c.source_

/-- advance_char with more than one unread character: index and column
  advance and the head of the unread input is consumed. -/
theorem Lexer.advance_char_of_lt {c : Lexer} (h : 1 < c.rem.length) :
    c.advance_char = { c with index_ := c.index_ + 1,
                              column_number_ := c.column_number_ + 1 } ∧
    c.advance_char.rem = c.rem.tail := by
  have hlen := c.rem_length
  have hne : ¬ c.index_ = c.source_.length - 1 := by omega
  constructor
  · rw [Lexer.advance_char, if_neg hne]
  · rw [Lexer.advance_char, if_neg hne]
    show c.source_.drop (c.index_ + 1) = (c.source_.drop c.index_).tail
    rw [List.tail_drop]

/-- advance_char on the final character (the null sentinel position) is a
  no-op. -/
theorem Lexer.advance_char_of_last {c : Lexer} (h : c.rem.length = 1) :
    c.advance_char = c := by
  have hlen := c.rem_length
  have heq : c.index_ = c.source_.length - 1 := by omega
  rw [Lexer.advance_char, if_pos heq]

@[simp] theorem Lexer.advance_char_state (c : Lexer) :
    c.advance_char.state_ = c.state_ := by
  unfold Lexer.advance_char; split <;> rfl

@[simp] theorem Lexer.advance_char_line (c : Lexer) :
    c.advance_char.line_number_ = c.line_number_ := by
  unfold Lexer.advance_char; split <;> rfl

@[simp] theorem Lexer.advance_char_sline (c : Lexer) :
    c.advance_char.start_line_number_ = c.start_line_number_ := by
  unfold Lexer.advance_char; split <;> rfl

@[simp] theorem Lexer.advance_char_scol (c : Lexer) :
    c.advance_char.start_column_number_ = c.start_column_number_ := by
  unfold Lexer.advance_char; split <;> rfl

@[simp] theorem Lexer.advance_char_tab (c : Lexer) :
    c.advance_char.columns_per_tab_ = c.columns_per_tab_ := by
  unfold Lexer.advance_char; split <;> rfl

@[simp] theorem Lexer.advance_char_tokens (c : Lexer) :
    c.advance_char.tokens_ = c.tokens_ := by
  unfold Lexer.advance_char; split <;> rfl

@[simp] theorem Lexer.advance_char_source (c : Lexer) :
    c.advance_char.source_ = c.source_ := by
  unfold Lexer.advance_char; split <;> rfl

@[simp] theorem Lexer.advance_line_rem (c : Lexer) :
    c.advance_line.rem = c.rem := rfl

@[simp] theorem Lexer.advance_tab_rem (c : Lexer) :
    c.advance_tab.rem = c.rem := rfl

@[simp] theorem Lexer.start_lexeme_rem (c : Lexer) :
    c.start_lexeme.rem = c.rem := rfl

@[simp] theorem Lexer.add_token_rem (c : Lexer) (tt : TokenType) :
    (c.add_token tt).rem = c.rem := rfl

/-- The token positions after add_token: the pending lexeme start position is
  appended. -/
theorem Lexer.add_token_pos (c : Lexer) (tt : TokenType) :
    (c.add_token tt).tokens_.map tokenPos =
      c.tokens_.map tokenPos ++
        [(c.start_line_number_, c.start_column_number_)] := by
  unfold Lexer.add_token
  simp [tokenPos]

/-- Fuel peeling: a finished run factors through any iterated prefix. -/
theorem Lexer.runFuel_peel {k : Nat} : ∀ {c c' : Lexer},
    Lexer.iterate k c = some c' →
    ∀ {n : Nat} {ts : List Token}, Lexer.runFuel n c = some ts →
      k ≤ n ∧ Lexer.runFuel (n - k) c' = some ts := by
  induction k with
  | zero =>
      intro c c' h n ts hn
      injection h with h
      subst h
      exact ⟨Nat.zero_le _, by simpa using hn⟩
  | succ k ih =>
      intro c c' h n ts hn
      rw [Lexer.iterate] at h
      cases hs : c.step with
      | cont c1 =>
          rw [hs] at h
          cases n with
          | zero => exact nomatch hn
          | succ m =>
              rw [Lexer.runFuel, hs] at hn
              obtain ⟨hk, hr⟩ := ih h hn
              exact ⟨Nat.succ_le_succ hk, by simpa [Nat.succ_sub_succ] using hr⟩
      | halt r =>
          rw [hs] at h
          exact nomatch h

@[simp] theorem Lexer.start_lexeme_current_char (c : Lexer) :
    c.start_lexeme.current_char = c.current_char := rfl

/-- Position equivalence survives start_lexeme on both sides. -/
theorem PosSim.start_lexeme {c₁ c₂ : Lexer} (h : PosSim c₁ c₂) :
    PosSim c₁.start_lexeme c₂.start_lexeme :=
  ⟨h.line_eq, h.col_eq, h.line_eq, h.col_eq, h.tab_eq, h.pos_eq⟩

/-- Position equivalence survives add_token on both sides (token types may
  differ; positions come from the shared lexeme start). -/
theorem PosSim.add_token {c₁ c₂ : Lexer} (h : PosSim c₁ c₂)
    (tt₁ tt₂ : TokenType) : PosSim (c₁.add_token tt₁) (c₂.add_token tt₂) :=
  ⟨h.line_eq, h.col_eq, h.sline_eq, h.scol_eq, h.tab_eq, by
    rw [Lexer.add_token_pos, Lexer.add_token_pos, h.pos_eq, h.sline_eq, h.scol_eq]⟩

/-- Position equivalence survives advance_char on both sides when both are
  at the final character or both are not. -/
theorem PosSim.advance {c₁ c₂ : Lexer} (h : PosSim c₁ c₂)
    (hsync : (c₁.rem.length = 1 ∧ c₂.rem.length = 1) ∨
             (1 < c₁.rem.length ∧ 1 < c₂.rem.length)) :
    PosSim c₁.advance_char c₂.advance_char := by
  have hcol : c₁.advance_char.column_number_ = c₂.advance_char.column_number_ := by
    rcases hsync with ⟨e₁, e₂⟩ | ⟨l₁, l₂⟩
    · rw [Lexer.advance_char_of_last e₁, Lexer.advance_char_of_last e₂]
      exact h.col_eq
    · rw [(Lexer.advance_char_of_lt l₁).1, (Lexer.advance_char_of_lt l₂).1]
      show c₁.column_number_ + 1 = c₂.column_number_ + 1
      rw [h.col_eq]
  exact ⟨by simp [h.line_eq], hcol, by simp [h.sline_eq], by simp [h.scol_eq],
         by simp [h.tab_eq], by simp [h.pos_eq]⟩

/-- Position equivalence survives advance_tab on both sides. -/
theorem PosSim.advance_tab {c₁ c₂ : Lexer} (h : PosSim c₁ c₂) :
    PosSim c₁.advance_tab c₂.advance_tab :=
  ⟨h.line_eq, by show _ / _ * _ = _ / _ * _; rw [h.col_eq, h.tab_eq],
   h.sline_eq, h.scol_eq, h.tab_eq, h.pos_eq⟩

/-- advance_char on both sides either consumes nothing on both or consumes
  the head on both. -/
theorem Lexer.advance_rem_cases {c₁ c₂ : Lexer}
    (hsync : (c₁.rem.length = 1 ∧ c₂.rem.length = 1) ∨
             (1 < c₁.rem.length ∧ 1 < c₂.rem.length)) :
    (c₁.advance_char.rem = c₁.rem ∧ c₂.advance_char.rem = c₂.rem) ∨
    (1 < c₁.rem.length ∧ 1 < c₂.rem.length ∧
     c₁.advance_char.rem = c₁.rem.tail ∧ c₂.advance_char.rem = c₂.rem.tail) := by
  rcases hsync with ⟨e₁, e₂⟩ | ⟨l₁, l₂⟩
  · exact Or.inl ⟨by rw [Lexer.advance_char_of_last e₁],
                  by rw [Lexer.advance_char_of_last e₂]⟩
  · exact Or.inr ⟨l₁, l₂, (Lexer.advance_char_of_lt l₁).2,
                  (Lexer.advance_char_of_lt l₂).2⟩

/--
  Lockstep step: from position-equivalent configurations in the same
  (non-CR-resolving) state looking at the same current character (neither CR
  nor LF), one loop iteration either halts both runs with position-equal
  token lists or continues both runs, preserving position equivalence and
  consuming the same number (zero or one) of input characters.
-/
theorem Lexer.lockstep {c₁ c₂ : Lexer}
    (hstate : c₁.state_ = c₂.state_)
    (hok1 : c₁.state_ ≠ LexerState.cr_or_crlf)
    (hok2 : c₁.state_ ≠ LexerState.multi_line_comment_cr_or_crlf)
    (hpos : PosSim c₁ c₂)
    (hcur : c₁.current_char = c₂.current_char)
    (hcr : c₁.current_char ≠ '\r') (hlf : c₁.current_char ≠ '\n')
    (hsync : (c₁.rem.length = 1 ∧ c₂.rem.length = 1) ∨
             (1 < c₁.rem.length ∧ 1 < c₂.rem.length)) :
    (∃ ts₁ ts₂, Lexer.step c₁ = LStep.halt ts₁ ∧ Lexer.step c₂ = LStep.halt ts₂ ∧
       ts₁.map tokenPos = ts₂.map tokenPos) ∨
    (∃ c₁' c₂', Lexer.step c₁ = LStep.cont c₁' ∧ Lexer.step c₂ = LStep.cont c₂' ∧
       c₁'.state_ = c₂'.state_ ∧
       c₁'.state_ ≠ LexerState.cr_or_crlf ∧
       c₁'.state_ ≠ LexerState.multi_line_comment_cr_or_crlf ∧
       PosSim c₁' c₂' ∧
       ((c₁'.rem = c₁.rem ∧ c₂'.rem = c₂.rem) ∨
        (1 < c₁.rem.length ∧ 1 < c₂.rem.length ∧
         c₁'.rem = c₁.rem.tail ∧ c₂'.rem = c₂.rem.tail))) := by
  cases hst : c₁.state_
  case cr_or_crlf => exact absurd hst hok1
  case divide_or_comment =>
    have hst₂ : c₂.state_ = LexerState.divide_or_comment := hstate.symm.trans hst
    by_cases h1 : c₁.current_char = '/'
    · have h2 : c₂.current_char = '/' := hcur.symm.trans h1
      have hs₁ : Lexer.step c₁ = LStep.cont ({ c₁.advance_char with state_ := LexerState.single_line_comment }) := by
        simp [Lexer.step, hst, h1] <;> decide
      have hs₂ : Lexer.step c₂ = LStep.cont ({ c₂.advance_char with state_ := LexerState.single_line_comment }) := by
        simp [Lexer.step, hst₂, h2] <;> decide
      have p := PosSim.advance hpos hsync
      exact Or.inr ⟨_, _, hs₁, hs₂, rfl, by simp, by simp, ⟨p.line_eq, p.col_eq, p.sline_eq, p.scol_eq, p.tab_eq, p.pos_eq⟩,
        Lexer.advance_rem_cases hsync⟩
    · by_cases h3 : c₁.current_char = '*'
      · have h4 : c₂.current_char = '*' := hcur.symm.trans h3
        have hs₁ : Lexer.step c₁ = LStep.cont ({ c₁.advance_char with state_ := LexerState.multi_line_comment }) := by
          simp [Lexer.step, hst, h3] <;> decide
        have hs₂ : Lexer.step c₂ = LStep.cont ({ c₂.advance_char with state_ := LexerState.multi_line_comment }) := by
          simp [Lexer.step, hst₂, h4] <;> decide
        have p := PosSim.advance hpos hsync
        exact Or.inr ⟨_, _, hs₁, hs₂, rfl, by simp, by simp, ⟨p.line_eq, p.col_eq, p.sline_eq, p.scol_eq, p.tab_eq, p.pos_eq⟩,
          Lexer.advance_rem_cases hsync⟩
      · have h2 : ¬ c₂.current_char = '/' := fun h => h1 (hcur.trans h)
        have h4 : ¬ c₂.current_char = '*' := fun h => h3 (hcur.trans h)
        have hs₁ : Lexer.step c₁ = LStep.cont ({ c₁.add_token TokenType.divide with state_ := LexerState.start }) := by
          simp [Lexer.step, hst, h1, h3] <;> decide
        have hs₂ : Lexer.step c₂ = LStep.cont ({ c₂.add_token TokenType.divide with state_ := LexerState.start }) := by
          simp [Lexer.step, hst₂, h2, h4] <;> decide
        have p := PosSim.add_token hpos TokenType.divide TokenType.divide
        exact Or.inr ⟨_, _, hs₁, hs₂, rfl, by simp, by simp, ⟨p.line_eq, p.col_eq, p.sline_eq, p.scol_eq, p.tab_eq, p.pos_eq⟩,
          Or.inl ⟨rfl, rfl⟩⟩
  case identifier_or_keyword =>
    have hst₂ : c₂.state_ = LexerState.identifier_or_keyword := hstate.symm.trans hst
    by_cases hb : (lex_isalnum c₁.current_char || (c₁.current_char == '_')) = true
    · have hb₂ : (lex_isalnum c₂.current_char || (c₂.current_char == '_')) = true := by
        rw [← hcur]; exact hb
      have hs₁ : Lexer.step c₁ = LStep.cont c₁.advance_char := by
        simp [Lexer.step, hst, hb, if_true] <;> decide
      have hs₂ : Lexer.step c₂ = LStep.cont c₂.advance_char := by
        simp [Lexer.step, hst₂, hb₂, if_true] <;> decide
      exact Or.inr ⟨_, _, hs₁, hs₂, by simp [Lexer.advance_tab, Lexer.start_lexeme, hstate], by simp [Lexer.advance_tab, Lexer.start_lexeme, hst], by simp [Lexer.advance_tab, Lexer.start_lexeme, hst],
        PosSim.advance hpos hsync, Lexer.advance_rem_cases hsync⟩
    · have hb₂ : ¬ (lex_isalnum c₂.current_char || (c₂.current_char == '_')) = true := by
        rw [← hcur]; exact hb
      have hs₁ : Lexer.step c₁ = LStep.cont
          ({ c₁.add_token (get_keyword_token_type c₁.get_lexeme) with state_ := LexerState.start }) := by
        simp [Lexer.step, hst, hb, if_false] <;> decide
      have hs₂ : Lexer.step c₂ = LStep.cont
          ({ c₂.add_token (get_keyword_token_type c₂.get_lexeme) with state_ := LexerState.start }) := by
        simp [Lexer.step, hst₂, hb₂, if_false] <;> decide
      have p := PosSim.add_token hpos (get_keyword_token_type c₁.get_lexeme)
        (get_keyword_token_type c₂.get_lexeme)
      exact Or.inr ⟨_, _, hs₁, hs₂, rfl, by simp, by simp, ⟨p.line_eq, p.col_eq, p.sline_eq, p.scol_eq, p.tab_eq, p.pos_eq⟩,
        Or.inl ⟨rfl, rfl⟩⟩
  case minus_or_arrow =>
    have hst₂ : c₂.state_ = LexerState.minus_or_arrow := hstate.symm.trans hst
    by_cases hb : (c₁.current_char == '>') = true
    · have hb₂ : (c₂.current_char == '>') = true := by rw [← hcur]; exact hb
      have hs₁ : Lexer.step c₁ = LStep.cont
          ({ c₁.advance_char.add_token TokenType.arrow with state_ := LexerState.start }) := by
        simp [Lexer.step, hst, hb, if_true] <;> decide
      have hs₂ : Lexer.step c₂ = LStep.cont
          ({ c₂.advance_char.add_token TokenType.arrow with state_ := LexerState.start }) := by
        simp [Lexer.step, hst₂, hb₂, if_true] <;> decide
      have p := PosSim.add_token (PosSim.advance hpos hsync) TokenType.arrow TokenType.arrow
      exact Or.inr ⟨_, _, hs₁, hs₂, rfl, by simp, by simp, ⟨p.line_eq, p.col_eq, p.sline_eq, p.scol_eq, p.tab_eq, p.pos_eq⟩,
        Lexer.advance_rem_cases hsync⟩
    · have hb₂ : ¬ (c₂.current_char == '>') = true := by rw [← hcur]; exact hb
      have hs₁ : Lexer.step c₁ = LStep.cont
          ({ c₁.add_token TokenType.minus with state_ := LexerState.start }) := by
        simp [Lexer.step, hst, hb, if_false] <;> decide
      have hs₂ : Lexer.step c₂ = LStep.cont
          ({ c₂.add_token TokenType.minus with state_ := LexerState.start }) := by
        simp [Lexer.step, hst₂, hb₂, if_false] <;> decide
      have p := PosSim.add_token hpos TokenType.minus TokenType.minus
      exact Or.inr ⟨_, _, hs₁, hs₂, rfl, by simp, by simp, ⟨p.line_eq, p.col_eq, p.sline_eq, p.scol_eq, p.tab_eq, p.pos_eq⟩,
        Or.inl ⟨rfl, rfl⟩⟩
  case multi_line_comment =>
    have hst₂ : c₂.state_ = LexerState.multi_line_comment := hstate.symm.trans hst
    have hcr₂ : ¬ c₂.current_char = '\r' := fun h => hcr (hcur.trans h)
    have hlf₂ : ¬ c₂.current_char = '\n' := fun h => hlf (hcur.trans h)
    by_cases h1 : c₁.current_char = '*'
    · have h2 : c₂.current_char = '*' := hcur.symm.trans h1
      have hs₁ : Lexer.step c₁ = LStep.cont
          ({ c₁.advance_char with state_ := LexerState.multi_line_comment_maybe_end }) := by
        simp [Lexer.step, hst, h1] <;> decide
      have hs₂ : Lexer.step c₂ = LStep.cont
          ({ c₂.advance_char with state_ := LexerState.multi_line_comment_maybe_end }) := by
        simp [Lexer.step, hst₂, h2] <;> decide
      have p := PosSim.advance hpos hsync
      exact Or.inr ⟨_, _, hs₁, hs₂, rfl, by simp, by simp, ⟨p.line_eq, p.col_eq, p.sline_eq, p.scol_eq, p.tab_eq, p.pos_eq⟩,
        Lexer.advance_rem_cases hsync⟩
    · have h2 : ¬ c₂.current_char = '*' := fun h => h1 (hcur.trans h)
      have hs₁ : Lexer.step c₁ = LStep.cont c₁.advance_char := by
        simp [Lexer.step, hst, hlf, hcr, h1] <;> decide
      have hs₂ : Lexer.step c₂ = LStep.cont c₂.advance_char := by
        simp [Lexer.step, hst₂, hlf₂, hcr₂, h2] <;> decide
      exact Or.inr ⟨_, _, hs₁, hs₂, by simp [Lexer.advance_tab, Lexer.start_lexeme, hstate], by simp [Lexer.advance_tab, Lexer.start_lexeme, hst], by simp [Lexer.advance_tab, Lexer.start_lexeme, hst],
        PosSim.advance hpos hsync, Lexer.advance_rem_cases hsync⟩
  case multi_line_comment_cr_or_crlf => exact absurd hst hok2
  case multi_line_comment_maybe_end =>
    have hst₂ : c₂.state_ = LexerState.multi_line_comment_maybe_end := hstate.symm.trans hst
    by_cases hb : (c₁.current_char == '/') = true
    · have hb₂ : (c₂.current_char == '/') = true := by rw [← hcur]; exact hb
      have hs₁ : Lexer.step c₁ = LStep.cont ({ c₁.advance_char with state_ := LexerState.start }) := by
        simp [Lexer.step, hst, hb, if_true] <;> decide
      have hs₂ : Lexer.step c₂ = LStep.cont ({ c₂.advance_char with state_ := LexerState.start }) := by
        simp [Lexer.step, hst₂, hb₂, if_true] <;> decide
      have p := PosSim.advance hpos hsync
      exact Or.inr ⟨_, _, hs₁, hs₂, rfl, by simp, by simp, ⟨p.line_eq, p.col_eq, p.sline_eq, p.scol_eq, p.tab_eq, p.pos_eq⟩,
        Lexer.advance_rem_cases hsync⟩
    · have hb₂ : ¬ (c₂.current_char == '/') = true := by rw [← hcur]; exact hb
      have hs₁ : Lexer.step c₁ = LStep.cont ({ c₁ with state_ := LexerState.multi_line_comment }) := by
        simp [Lexer.step, hst, hb, if_false] <;> decide
      have hs₂ : Lexer.step c₂ = LStep.cont ({ c₂ with state_ := LexerState.multi_line_comment }) := by
        simp [Lexer.step, hst₂, hb₂, if_false] <;> decide
      exact Or.inr ⟨_, _, hs₁, hs₂, rfl, by simp, by simp, ⟨hpos.line_eq, hpos.col_eq, hpos.sline_eq, hpos.scol_eq, hpos.tab_eq, hpos.pos_eq⟩,
        Or.inl ⟨rfl, rfl⟩⟩
  case single_line_comment =>
    have hst₂ : c₂.state_ = LexerState.single_line_comment := hstate.symm.trans hst
    have hcr₂ : ¬ c₂.current_char = '\r' := fun h => hcr (hcur.trans h)
    have hlf₂ : ¬ c₂.current_char = '\n' := fun h => hlf (hcur.trans h)
    have hs₁ : Lexer.step c₁ = LStep.cont c₁.advance_char := by
      simp [Lexer.step, hst, hlf, hcr] <;> decide
    have hs₂ : Lexer.step c₂ = LStep.cont c₂.advance_char := by
      simp [Lexer.step, hst₂, hlf₂, hcr₂] <;> decide
    exact Or.inr ⟨_, _, hs₁, hs₂, by simp [Lexer.advance_tab, Lexer.start_lexeme, hstate], by simp [Lexer.advance_tab, Lexer.start_lexeme, hst], by simp [Lexer.advance_tab, Lexer.start_lexeme, hst],
      PosSim.advance hpos hsync, Lexer.advance_rem_cases hsync⟩
  case start =>
    have hst₂ : c₂.state_ = LexerState.start := hstate.symm.trans hst
    have hcr₂ : ¬ c₂.current_char = '\r' := fun h => hcr (hcur.trans h)
    have hlf₂ : ¬ c₂.current_char = '\n' := fun h => hlf (hcur.trans h)
    have p0 := PosSim.start_lexeme hpos
    by_cases hb : (lex_isalpha c₁.current_char || (c₁.current_char == '_')) = true
    · have hb₂ : (lex_isalpha c₂.current_char || (c₂.current_char == '_')) = true := by
        rw [← hcur]; exact hb
      have hs₁ : Lexer.step c₁ = LStep.cont
          ({ c₁.start_lexeme.advance_char with state_ := LexerState.identifier_or_keyword }) := by
        simp [Lexer.step, hst, Lexer.start_lexeme_current_char, hb, if_true] <;> decide
      have hs₂ : Lexer.step c₂ = LStep.cont
          ({ c₂.start_lexeme.advance_char with state_ := LexerState.identifier_or_keyword }) := by
        simp [Lexer.step, hst₂, Lexer.start_lexeme_current_char, hb₂, if_true] <;> decide
      have p := PosSim.advance p0 hsync
      exact Or.inr ⟨_, _, hs₁, hs₂, rfl, by simp, by simp, ⟨p.line_eq, p.col_eq, p.sline_eq, p.scol_eq, p.tab_eq, p.pos_eq⟩,
        Lexer.advance_rem_cases hsync⟩
    · have hb₂ : ¬ (lex_isalpha c₂.current_char || (c₂.current_char == '_')) = true := by
        rw [← hcur]; exact hb
      by_cases hc0 : c₁.current_char = '+'
      · have hd0 : c₂.current_char = '+' := hcur.symm.trans hc0
        have hs₁ : Lexer.step c₁ = LStep.cont
            ({ c₁.start_lexeme.advance_char.add_token TokenType.plus with state_ := LexerState.start }) := by
          simp [Lexer.step, hst, Lexer.start_lexeme_current_char, hb, if_false, hc0] <;> decide
        have hs₂ : Lexer.step c₂ = LStep.cont
            ({ c₂.start_lexeme.advance_char.add_token TokenType.plus with state_ := LexerState.start }) := by
          simp [Lexer.step, hst₂, Lexer.start_lexeme_current_char, hb₂, if_false, hd0] <;> decide
        have p := PosSim.add_token (PosSim.advance p0 hsync) TokenType.plus TokenType.plus
        exact Or.inr ⟨_, _, hs₁, hs₂, rfl, by simp, by simp, ⟨p.line_eq, p.col_eq, p.sline_eq, p.scol_eq, p.tab_eq, p.pos_eq⟩,
          Lexer.advance_rem_cases hsync⟩
      · have hd0 : ¬ c₂.current_char = '+' := fun h => hc0 (hcur.trans h)
        by_cases hc1 : c₁.current_char = '*'
        · have hd1 : c₂.current_char = '*' := hcur.symm.trans hc1
          have hs₁ : Lexer.step c₁ = LStep.cont
              ({ c₁.start_lexeme.advance_char.add_token TokenType.multiply with state_ := LexerState.start }) := by
            simp [Lexer.step, hst, Lexer.start_lexeme_current_char, hb, if_false, hc1] <;> decide
          have hs₂ : Lexer.step c₂ = LStep.cont
              ({ c₂.start_lexeme.advance_char.add_token TokenType.multiply with state_ := LexerState.start }) := by
            simp [Lexer.step, hst₂, Lexer.start_lexeme_current_char, hb₂, if_false, hd1] <;> decide
          have p := PosSim.add_token (PosSim.advance p0 hsync) TokenType.multiply TokenType.multiply
          exact Or.inr ⟨_, _, hs₁, hs₂, rfl, by simp, by simp, ⟨p.line_eq, p.col_eq, p.sline_eq, p.scol_eq, p.tab_eq, p.pos_eq⟩,
            Lexer.advance_rem_cases hsync⟩
        · have hd1 : ¬ c₂.current_char = '*' := fun h => hc1 (hcur.trans h)
          by_cases hc2 : c₁.current_char = '%'
          · have hd2 : c₂.current_char = '%' := hcur.symm.trans hc2
            have hs₁ : Lexer.step c₁ = LStep.cont
                ({ c₁.start_lexeme.advance_char.add_token TokenType.modulo with state_ := LexerState.start }) := by
              simp [Lexer.step, hst, Lexer.start_lexeme_current_char, hb, if_false, hc2] <;> decide
            have hs₂ : Lexer.step c₂ = LStep.cont
                ({ c₂.start_lexeme.advance_char.add_token TokenType.modulo with state_ := LexerState.start }) := by
              simp [Lexer.step, hst₂, Lexer.start_lexeme_current_char, hb₂, if_false, hd2] <;> decide
            have p := PosSim.add_token (PosSim.advance p0 hsync) TokenType.modulo TokenType.modulo
            exact Or.inr ⟨_, _, hs₁, hs₂, rfl, by simp, by simp, ⟨p.line_eq, p.col_eq, p.sline_eq, p.scol_eq, p.tab_eq, p.pos_eq⟩,
              Lexer.advance_rem_cases hsync⟩
          · have hd2 : ¬ c₂.current_char = '%' := fun h => hc2 (hcur.trans h)
            by_cases hc3 : c₁.current_char = ','
            · have hd3 : c₂.current_char = ',' := hcur.symm.trans hc3
              have hs₁ : Lexer.step c₁ = LStep.cont
                  ({ c₁.start_lexeme.advance_char.add_token TokenType.comma with state_ := LexerState.start }) := by
                simp [Lexer.step, hst, Lexer.start_lexeme_current_char, hb, if_false, hc3] <;> decide
              have hs₂ : Lexer.step c₂ = LStep.cont
                  ({ c₂.start_lexeme.advance_char.add_token TokenType.comma with state_ := LexerState.start }) := by
                simp [Lexer.step, hst₂, Lexer.start_lexeme_current_char, hb₂, if_false, hd3] <;> decide
              have p := PosSim.add_token (PosSim.advance p0 hsync) TokenType.comma TokenType.comma
              exact Or.inr ⟨_, _, hs₁, hs₂, rfl, by simp, by simp, ⟨p.line_eq, p.col_eq, p.sline_eq, p.scol_eq, p.tab_eq, p.pos_eq⟩,
                Lexer.advance_rem_cases hsync⟩
            · have hd3 : ¬ c₂.current_char = ',' := fun h => hc3 (hcur.trans h)
              by_cases hc4 : c₁.current_char = ';'
              · have hd4 : c₂.current_char = ';' := hcur.symm.trans hc4
                have hs₁ : Lexer.step c₁ = LStep.cont
                    ({ c₁.start_lexeme.advance_char.add_token TokenType.semicolon with state_ := LexerState.start }) := by
                  simp [Lexer.step, hst, Lexer.start_lexeme_current_char, hb, if_false, hc4] <;> decide
                have hs₂ : Lexer.step c₂ = LStep.cont
                    ({ c₂.start_lexeme.advance_char.add_token TokenType.semicolon with state_ := LexerState.start }) := by
                  simp [Lexer.step, hst₂, Lexer.start_lexeme_current_char, hb₂, if_false, hd4] <;> decide
                have p := PosSim.add_token (PosSim.advance p0 hsync) TokenType.semicolon TokenType.semicolon
                exact Or.inr ⟨_, _, hs₁, hs₂, rfl, by simp, by simp, ⟨p.line_eq, p.col_eq, p.sline_eq, p.scol_eq, p.tab_eq, p.pos_eq⟩,
                  Lexer.advance_rem_cases hsync⟩
              · have hd4 : ¬ c₂.current_char = ';' := fun h => hc4 (hcur.trans h)
                by_cases hc5 : c₁.current_char = '\x7b'
                · have hd5 : c₂.current_char = '\x7b' := hcur.symm.trans hc5
                  have hs₁ : Lexer.step c₁ = LStep.cont
                      ({ c₁.start_lexeme.advance_char.add_token TokenType.left_curly with state_ := LexerState.start }) := by
                    simp [Lexer.step, hst, Lexer.start_lexeme_current_char, hb, if_false, hc5] <;> decide
                  have hs₂ : Lexer.step c₂ = LStep.cont
                      ({ c₂.start_lexeme.advance_char.add_token TokenType.left_curly with state_ := LexerState.start }) := by
                    simp [Lexer.step, hst₂, Lexer.start_lexeme_current_char, hb₂, if_false, hd5] <;> decide
                  have p := PosSim.add_token (PosSim.advance p0 hsync) TokenType.left_curly TokenType.left_curly
                  exact Or.inr ⟨_, _, hs₁, hs₂, rfl, by simp, by simp, ⟨p.line_eq, p.col_eq, p.sline_eq, p.scol_eq, p.tab_eq, p.pos_eq⟩,
                    Lexer.advance_rem_cases hsync⟩
                · have hd5 : ¬ c₂.current_char = '\x7b' := fun h => hc5 (hcur.trans h)
                  by_cases hc6 : c₁.current_char = '\x7d'
                  · have hd6 : c₂.current_char = '\x7d' := hcur.symm.trans hc6
                    have hs₁ : Lexer.step c₁ = LStep.cont
                        ({ c₁.start_lexeme.advance_char.add_token TokenType.right_curly with state_ := LexerState.start }) := by
                      simp [Lexer.step, hst, Lexer.start_lexeme_current_char, hb, if_false, hc6] <;> decide
                    have hs₂ : Lexer.step c₂ = LStep.cont
                        ({ c₂.start_lexeme.advance_char.add_token TokenType.right_curly with state_ := LexerState.start }) := by
                      simp [Lexer.step, hst₂, Lexer.start_lexeme_current_char, hb₂, if_false, hd6] <;> decide
                    have p := PosSim.add_token (PosSim.advance p0 hsync) TokenType.right_curly TokenType.right_curly
                    exact Or.inr ⟨_, _, hs₁, hs₂, rfl, by simp, by simp, ⟨p.line_eq, p.col_eq, p.sline_eq, p.scol_eq, p.tab_eq, p.pos_eq⟩,
                      Lexer.advance_rem_cases hsync⟩
                  · have hd6 : ¬ c₂.current_char = '\x7d' := fun h => hc6 (hcur.trans h)
                    by_cases hc7 : c₁.current_char = '('
                    · have hd7 : c₂.current_char = '(' := hcur.symm.trans hc7
                      have hs₁ : Lexer.step c₁ = LStep.cont
                          ({ c₁.start_lexeme.advance_char.add_token TokenType.left_paren with state_ := LexerState.start }) := by
                        simp [Lexer.step, hst, Lexer.start_lexeme_current_char, hb, if_false, hc7] <;> decide
                      have hs₂ : Lexer.step c₂ = LStep.cont
                          ({ c₂.start_lexeme.advance_char.add_token TokenType.left_paren with state_ := LexerState.start }) := by
                        simp [Lexer.step, hst₂, Lexer.start_lexeme_current_char, hb₂, if_false, hd7] <;> decide
                      have p := PosSim.add_token (PosSim.advance p0 hsync) TokenType.left_paren TokenType.left_paren
                      exact Or.inr ⟨_, _, hs₁, hs₂, rfl, by simp, by simp, ⟨p.line_eq, p.col_eq, p.sline_eq, p.scol_eq, p.tab_eq, p.pos_eq⟩,
                        Lexer.advance_rem_cases hsync⟩
                    · have hd7 : ¬ c₂.current_char = '(' := fun h => hc7 (hcur.trans h)
                      by_cases hc8 : c₁.current_char = ')'
                      · have hd8 : c₂.current_char = ')' := hcur.symm.trans hc8
                        have hs₁ : Lexer.step c₁ = LStep.cont
                            ({ c₁.start_lexeme.advance_char.add_token TokenType.right_paren with state_ := LexerState.start }) := by
                          simp [Lexer.step, hst, Lexer.start_lexeme_current_char, hb, if_false, hc8] <;> decide
                        have hs₂ : Lexer.step c₂ = LStep.cont
                            ({ c₂.start_lexeme.advance_char.add_token TokenType.right_paren with state_ := LexerState.start }) := by
                          simp [Lexer.step, hst₂, Lexer.start_lexeme_current_char, hb₂, if_false, hd8] <;> decide
                        have p := PosSim.add_token (PosSim.advance p0 hsync) TokenType.right_paren TokenType.right_paren
                        exact Or.inr ⟨_, _, hs₁, hs₂, rfl, by simp, by simp, ⟨p.line_eq, p.col_eq, p.sline_eq, p.scol_eq, p.tab_eq, p.pos_eq⟩,
                          Lexer.advance_rem_cases hsync⟩
                      · have hd8 : ¬ c₂.current_char = ')' := fun h => hc8 (hcur.trans h)
                        by_cases ht : c₁.current_char = '\t'
                        · have ht₂ : c₂.current_char = '\t' := hcur.symm.trans ht
                          have hs₁ : Lexer.step c₁ = LStep.cont c₁.start_lexeme.advance_char.advance_tab := by
                            simp [Lexer.step, hst, Lexer.start_lexeme_current_char, hb, if_false, ht,
                              (show lex_isalpha '\t' = false by decide)] <;> decide
                          have hs₂ : Lexer.step c₂ = LStep.cont c₂.start_lexeme.advance_char.advance_tab := by
                            simp [Lexer.step, hst₂, Lexer.start_lexeme_current_char, hb₂, if_false, ht₂,
                              (show lex_isalpha '\t' = false by decide)] <;> decide
                          have p := PosSim.advance_tab (PosSim.advance p0 hsync)
                          exact Or.inr ⟨_, _, hs₁, hs₂, by simp [Lexer.advance_tab, Lexer.start_lexeme, hstate], by simp [Lexer.advance_tab, Lexer.start_lexeme, hst], by simp [Lexer.advance_tab, Lexer.start_lexeme, hst], ⟨p.line_eq, p.col_eq, p.sline_eq, p.scol_eq, p.tab_eq, p.pos_eq⟩,
                            Lexer.advance_rem_cases hsync⟩
                        · have ht₂ : ¬ c₂.current_char = '\t' := fun h => ht (hcur.trans h)
                          by_cases hsp : c₁.current_char = ' '
                          · have hsp₂ : c₂.current_char = ' ' := hcur.symm.trans hsp
                            have hs₁ : Lexer.step c₁ = LStep.cont c₁.start_lexeme.advance_char := by
                              simp [Lexer.step, hst, Lexer.start_lexeme_current_char, hb, if_false, hsp,
                                (show lex_isalpha ' ' = false by decide)] <;> decide
                            have hs₂ : Lexer.step c₂ = LStep.cont c₂.start_lexeme.advance_char := by
                              simp [Lexer.step, hst₂, Lexer.start_lexeme_current_char, hb₂, if_false, hsp₂,
                                (show lex_isalpha ' ' = false by decide)] <;> decide
                            have p := PosSim.advance p0 hsync
                            exact Or.inr ⟨_, _, hs₁, hs₂, by simp [Lexer.advance_tab, Lexer.start_lexeme, hstate], by simp [Lexer.advance_tab, Lexer.start_lexeme, hst], by simp [Lexer.advance_tab, Lexer.start_lexeme, hst], ⟨p.line_eq, p.col_eq, p.sline_eq, p.scol_eq, p.tab_eq, p.pos_eq⟩,
                              Lexer.advance_rem_cases hsync⟩
                          · have hsp₂ : ¬ c₂.current_char = ' ' := fun h => hsp (hcur.trans h)
                            by_cases hsl : c₁.current_char = '/'
                            · have hsl₂ : c₂.current_char = '/' := hcur.symm.trans hsl
                              have hs₁ : Lexer.step c₁ = LStep.cont
                                  ({ c₁.start_lexeme.advance_char with state_ := LexerState.divide_or_comment }) := by
                                simp [Lexer.step, hst, Lexer.start_lexeme_current_char, hb, if_false, hsl] <;> decide
                              have hs₂ : Lexer.step c₂ = LStep.cont
                                  ({ c₂.start_lexeme.advance_char with state_ := LexerState.divide_or_comment }) := by
                                simp [Lexer.step, hst₂, Lexer.start_lexeme_current_char, hb₂, if_false, hsl₂] <;> decide
                              have p := PosSim.advance p0 hsync
                              exact Or.inr ⟨_, _, hs₁, hs₂, rfl, by simp, by simp, ⟨p.line_eq, p.col_eq, p.sline_eq, p.scol_eq, p.tab_eq, p.pos_eq⟩,
                                Lexer.advance_rem_cases hsync⟩
                            · have hsl₂ : ¬ c₂.current_char = '/' := fun h => hsl (hcur.trans h)
                              by_cases hmi : c₁.current_char = '-'
                              · have hmi₂ : c₂.current_char = '-' := hcur.symm.trans hmi
                                have hs₁ : Lexer.step c₁ = LStep.cont
                                    ({ c₁.start_lexeme.advance_char with state_ := LexerState.minus_or_arrow }) := by
                                  simp [Lexer.step, hst, Lexer.start_lexeme_current_char, hb, if_false, hmi] <;> decide
                                have hs₂ : Lexer.step c₂ = LStep.cont
                                    ({ c₂.start_lexeme.advance_char with state_ := LexerState.minus_or_arrow }) := by
                                  simp [Lexer.step, hst₂, Lexer.start_lexeme_current_char, hb₂, if_false, hmi₂] <;> decide
                                have p := PosSim.advance p0 hsync
                                exact Or.inr ⟨_, _, hs₁, hs₂, rfl, by simp, by simp, ⟨p.line_eq, p.col_eq, p.sline_eq, p.scol_eq, p.tab_eq, p.pos_eq⟩,
                                  Lexer.advance_rem_cases hsync⟩
                              · have hmi₂ : ¬ c₂.current_char = '-' := fun h => hmi (hcur.trans h)
                                by_cases hnl : c₁.current_char = '\x00'
                                · have hnl₂ : c₂.current_char = '\x00' := hcur.symm.trans hnl
                                  have hs₁ : Lexer.step c₁ = LStep.halt (c₁.start_lexeme.add_token TokenType.«end»).tokens_ := by
                                    simp [Lexer.step, hst, Lexer.start_lexeme_current_char, hb, if_false, hnl] <;> decide
                                  have hs₂ : Lexer.step c₂ = LStep.halt (c₂.start_lexeme.add_token TokenType.«end»).tokens_ := by
                                    simp [Lexer.step, hst₂, Lexer.start_lexeme_current_char, hb₂, if_false, hnl₂] <;> decide
                                  refine Or.inl ⟨_, _, hs₁, hs₂, ?_⟩
                                  have q := PosSim.add_token p0 TokenType.«end» TokenType.«end»
                                  exact q.pos_eq
                                · have hnl₂ : ¬ c₂.current_char = '\x00' := fun h => hnl (hcur.trans h)
                                  have hs₁ : Lexer.step c₁ = LStep.cont c₁.start_lexeme := by
                                    simp [Lexer.step, hst, Lexer.start_lexeme_current_char, hb, if_false,
                                      hc0, hc1, hc2, hc3, hc4, hc5, hc6, hc7, hc8, ht, hsp, hsl, hmi, hnl, hcr, hlf] <;> decide
                                  have hs₂ : Lexer.step c₂ = LStep.cont c₂.start_lexeme := by
                                    simp [Lexer.step, hst₂, Lexer.start_lexeme_current_char, hb₂, if_false,
                                      hd0, hd1, hd2, hd3, hd4, hd5, hd6, hd7, hd8, ht₂, hsp₂, hsl₂, hmi₂, hnl₂, hcr₂, hlf₂] <;> decide
                                  exact Or.inr ⟨_, _, hs₁, hs₂, hstate, by simp [Lexer.start_lexeme, hst],
                                    by simp [Lexer.start_lexeme, hst], p0, Or.inl ⟨rfl, rfl⟩⟩

/-- The head of the unread input, as the current character. -/
theorem Lexer.current_char_headD (c : Lexer) :
    c.current_char = c.rem.headD '\x00' :=
  getD_eq_headD_drop c.source_ c.index_ '\x00'

/-- The cr_or_crlf state with a line feed next: consume it and advance the line. -/
theorem Lexer.step_cr_lf {c : Lexer} (hstate : c.state_ = LexerState.cr_or_crlf)
    (hcur : c.current_char = '\n') :
    Lexer.step c = LStep.cont ({ c.advance_char.advance_line with state_ := LexerState.start }) := by
  simp [Lexer.step, hstate, hcur]

/-- The cr_or_crlf state with anything else next: a lone CR, just advance the line. -/
theorem Lexer.step_cr_other {c : Lexer} (hstate : c.state_ = LexerState.cr_or_crlf)
    (hcur : c.current_char ≠ '\n') :
    Lexer.step c = LStep.cont ({ c.advance_line with state_ := LexerState.start }) := by
  simp [Lexer.step, hstate, hcur]

/-- The multi_line_comment_cr_or_crlf state with a line feed next. -/
theorem Lexer.step_mlc_cr_lf {c : Lexer} (hstate : c.state_ = LexerState.multi_line_comment_cr_or_crlf)
    (hcur : c.current_char = '\n') :
    Lexer.step c = LStep.cont
      ({ c.advance_char.advance_line with state_ := LexerState.multi_line_comment }) := by
  simp [Lexer.step, hstate, hcur]

/-- The multi_line_comment_cr_or_crlf state with anything else next. -/
theorem Lexer.step_mlc_cr_other {c : Lexer} (hstate : c.state_ = LexerState.multi_line_comment_cr_or_crlf)
    (hcur : c.current_char ≠ '\n') :
    Lexer.step c = LStep.cont ({ c.advance_line with state_ := LexerState.multi_line_comment }) := by
  simp [Lexer.step, hstate, hcur]

/--
  In the states that neither consume line breaks nor are in the middle of
  one (identifier_or_keyword, divide_or_comment, minus_or_arrow,
  multi_line_comment_maybe_end), a line-break character on both sides takes
  the default/else transition on both sides: one loop iteration consumes
  nothing, token positions stay equivalent and the runs stay in the same
  state.
-/
theorem Lexer.break_passive {c₁ c₂ : Lexer}
    (hstate : c₁.state_ = c₂.state_)
    (hpassive : c₁.state_ = LexerState.identifier_or_keyword ∨
                c₁.state_ = LexerState.divide_or_comment ∨
                c₁.state_ = LexerState.minus_or_arrow ∨
                c₁.state_ = LexerState.multi_line_comment_maybe_end)
    (hpos : PosSim c₁ c₂)
    (hbr₁ : c₁.current_char = '\r' ∨ c₁.current_char = '\n')
    (hbr₂ : c₂.current_char = '\r' ∨ c₂.current_char = '\n') :
    ∃ c₁' c₂', Lexer.step c₁ = LStep.cont c₁' ∧ Lexer.step c₂ = LStep.cont c₂' ∧
      c₁'.state_ = c₂'.state_ ∧
      c₁'.state_ ≠ LexerState.cr_or_crlf ∧
      c₁'.state_ ≠ LexerState.multi_line_comment_cr_or_crlf ∧
      PosSim c₁' c₂' ∧ c₁'.rem = c₁.rem ∧ c₂'.rem = c₂.rem := by
  rcases hpassive with hst | hst | hst | hst
  · have hst₂ : c₂.state_ = LexerState.identifier_or_keyword := hstate.symm.trans hst
    have hb : (lex_isalnum c₁.current_char || (c₁.current_char == '_')) = false := by
      rcases hbr₁ with h | h <;> rw [h] <;> decide
    have hb₂ : (lex_isalnum c₂.current_char || (c₂.current_char == '_')) = false := by
      rcases hbr₂ with h | h <;> rw [h] <;> decide
    have hs₁ : Lexer.step c₁ = LStep.cont
        ({ c₁.add_token (get_keyword_token_type c₁.get_lexeme) with
           state_ := LexerState.start }) := by
      simp [Lexer.step, hst, hb]
    have hs₂ : Lexer.step c₂ = LStep.cont
        ({ c₂.add_token (get_keyword_token_type c₂.get_lexeme) with
           state_ := LexerState.start }) := by
      simp [Lexer.step, hst₂, hb₂]
    have p := PosSim.add_token hpos (get_keyword_token_type c₁.get_lexeme)
      (get_keyword_token_type c₂.get_lexeme)
    exact ⟨_, _, hs₁, hs₂, rfl, by simp, by simp,
      ⟨p.line_eq, p.col_eq, p.sline_eq, p.scol_eq, p.tab_eq, p.pos_eq⟩, rfl, rfl⟩
  · have hst₂ : c₂.state_ = LexerState.divide_or_comment := hstate.symm.trans hst
    have h1 : ¬ c₁.current_char = '/' := by
      rcases hbr₁ with h | h <;> rw [h] <;> decide
    have h2 : ¬ c₁.current_char = '*' := by
      rcases hbr₁ with h | h <;> rw [h] <;> decide
    have h3 : ¬ c₂.current_char = '/' := by
      rcases hbr₂ with h | h <;> rw [h] <;> decide
    have h4 : ¬ c₂.current_char = '*' := by
      rcases hbr₂ with h | h <;> rw [h] <;> decide
    have hs₁ : Lexer.step c₁ = LStep.cont
        ({ c₁.add_token TokenType.divide with state_ := LexerState.start }) := by
      simp [Lexer.step, hst, h1, h2]
    have hs₂ : Lexer.step c₂ = LStep.cont
        ({ c₂.add_token TokenType.divide with state_ := LexerState.start }) := by
      simp [Lexer.step, hst₂, h3, h4]
    have p := PosSim.add_token hpos TokenType.divide TokenType.divide
    exact ⟨_, _, hs₁, hs₂, rfl, by simp, by simp,
      ⟨p.line_eq, p.col_eq, p.sline_eq, p.scol_eq, p.tab_eq, p.pos_eq⟩, rfl, rfl⟩
  · have hst₂ : c₂.state_ = LexerState.minus_or_arrow := hstate.symm.trans hst
    have h1 : (c₁.current_char == '>') = false := by
      rcases hbr₁ with h | h <;> rw [h] <;> decide
    have h2 : (c₂.current_char == '>') = false := by
      rcases hbr₂ with h | h <;> rw [h] <;> decide
    have hs₁ : Lexer.step c₁ = LStep.cont
        ({ c₁.add_token TokenType.minus with state_ := LexerState.start }) := by
      simp [Lexer.step, hst, h1]
    have hs₂ : Lexer.step c₂ = LStep.cont
        ({ c₂.add_token TokenType.minus with state_ := LexerState.start }) := by
      simp [Lexer.step, hst₂, h2]
    have p := PosSim.add_token hpos TokenType.minus TokenType.minus
    exact ⟨_, _, hs₁, hs₂, rfl, by simp, by simp,
      ⟨p.line_eq, p.col_eq, p.sline_eq, p.scol_eq, p.tab_eq, p.pos_eq⟩, rfl, rfl⟩
  · have hst₂ : c₂.state_ = LexerState.multi_line_comment_maybe_end := hstate.symm.trans hst
    have h1 : (c₁.current_char == '/') = false := by
      rcases hbr₁ with h | h <;> rw [h] <;> decide
    have h2 : (c₂.current_char == '/') = false := by
      rcases hbr₂ with h | h <;> rw [h] <;> decide
    have hs₁ : Lexer.step c₁ = LStep.cont
        ({ c₁ with state_ := LexerState.multi_line_comment }) := by
      simp [Lexer.step, hst, h1]
    have hs₂ : Lexer.step c₂ = LStep.cont
        ({ c₂ with state_ := LexerState.multi_line_comment }) := by
      simp [Lexer.step, hst₂, h2]
    exact ⟨_, _, hs₁, hs₂, rfl, by simp, by simp,
      ⟨hpos.line_eq, hpos.col_eq, hpos.sline_eq, hpos.scol_eq, hpos.tab_eq, hpos.pos_eq⟩,
      rfl, rfl⟩

/-- Unfold one loop iteration when the step continues. -/
theorem Lexer.iterate_succ_cont {n : Nat} {c c' : Lexer}
    (h : Lexer.step c = LStep.cont c') :
    Lexer.iterate (n + 1) c = Lexer.iterate n c' := by
  simp [Lexer.iterate, h]

/--
  Consuming one line break in state single_line_comment: whichever of the
  three encodings is next on the input, within two loop iterations the lexer
  is in the start state just past the break, on the next line at column 1,
  with everything else unchanged.
-/
theorem Lexer.break_progress_slc {s t : List Char} {c : Lexer}
    (hs : isBreakSep s) (hstate : c.state_ = LexerState.single_line_comment)
    (hrem : c.rem = s ++ t) (ht : t ≠ [])
    (hhd : s = crSep → t.headD '\x00' ≠ '\n') :
    ∃ k c', 1 ≤ k ∧ k ≤ 2 ∧ Lexer.iterate k c = some c' ∧
      c'.state_ = LexerState.start ∧ c'.rem = t ∧
      c'.line_number_ = c.line_number_ + 1 ∧ c'.column_number_ = 1 ∧
      c'.start_line_number_ = c.start_line_number_ ∧
      c'.start_column_number_ = c.start_column_number_ ∧
      c'.tokens_ = c.tokens_ ∧ c'.columns_per_tab_ = c.columns_per_tab_ := by
  rcases hs with hcr | hlf | hcrlf
  · -- CR
    subst hcr
    have hrem' : c.rem = '\r' :: t := hrem
    have hcur : c.current_char = '\r' := Lexer.current_char_of_rem hrem'
    have hlen : 1 < c.rem.length := by
      rw [hrem']
      have := List.length_pos.mpr ht
      simp [List.length_cons]
      omega
    have hs₁ : Lexer.step c = LStep.cont
        ({ c.advance_char with state_ := LexerState.cr_or_crlf }) := by
      simp [Lexer.step, hstate, hcur]
    have hremA : ({ c.advance_char with state_ := LexerState.cr_or_crlf } : Lexer).rem = t := by
      show c.advance_char.rem = t
      rw [(Lexer.advance_char_of_lt hlen).2, hrem']
      rfl
    have hcurA : ({ c.advance_char with state_ := LexerState.cr_or_crlf } : Lexer).current_char ≠ '\n' := by
      rw [Lexer.current_char_headD, hremA]
      exact hhd rfl
    have hs₂ : Lexer.step ({ c.advance_char with state_ := LexerState.cr_or_crlf }) =
        LStep.cont ({ ({ c.advance_char with state_ := LexerState.cr_or_crlf } : Lexer).advance_line
          with state_ := LexerState.start }) :=
      Lexer.step_cr_other rfl hcurA
    have hiter : Lexer.iterate 2 c = some
        ({ ({ c.advance_char with state_ := LexerState.cr_or_crlf } : Lexer).advance_line
           with state_ := LexerState.start }) := by
      rw [Lexer.iterate_succ_cont hs₁, Lexer.iterate_succ_cont hs₂]
      rfl
    refine ⟨2, _, by omega, by omega, hiter, rfl, ?_, ?_, rfl, ?_, ?_, ?_, ?_⟩
    · exact hremA
    · show c.advance_char.line_number_ + 1 = c.line_number_ + 1
      simp
    · show c.advance_char.start_line_number_ = c.start_line_number_
      simp
    · show c.advance_char.start_column_number_ = c.start_column_number_
      simp
    · show c.advance_char.tokens_ = c.tokens_
      simp
    · show c.advance_char.columns_per_tab_ = c.columns_per_tab_
      simp
  · -- LF
    subst hlf
    have hrem' : c.rem = '\n' :: t := hrem
    have hcur : c.current_char = '\n' := Lexer.current_char_of_rem hrem'
    have hlen : 1 < c.rem.length := by
      rw [hrem']
      have := List.length_pos.mpr ht
      simp [List.length_cons]
      omega
    have hs₁ : Lexer.step c = LStep.cont
        ({ c.advance_char.advance_line with state_ := LexerState.start }) := by
      simp [Lexer.step, hstate, hcur]
    have hiter : Lexer.iterate 1 c = some
        ({ c.advance_char.advance_line with state_ := LexerState.start }) := by
      rw [Lexer.iterate_succ_cont hs₁]
      rfl
    refine ⟨1, _, by omega, by omega, hiter, rfl, ?_, ?_, rfl, ?_, ?_, ?_, ?_⟩
    · show c.advance_char.rem = t
      rw [(Lexer.advance_char_of_lt hlen).2, hrem']
      rfl
    · show c.advance_char.line_number_ + 1 = c.line_number_ + 1
      simp
    · show c.advance_char.start_line_number_ = c.start_line_number_
      simp
    · show c.advance_char.start_column_number_ = c.start_column_number_
      simp
    · show c.advance_char.tokens_ = c.tokens_
      simp
    · show c.advance_char.columns_per_tab_ = c.columns_per_tab_
      simp
  · -- CRLF
    subst hcrlf
    have hrem' : c.rem = '\r' :: '\n' :: t := hrem
    have hcur : c.current_char = '\r' := Lexer.current_char_of_rem hrem'
    have hlen : 1 < c.rem.length := by
      rw [hrem']
      simp [List.length_cons]
    have hs₁ : Lexer.step c = LStep.cont
        ({ c.advance_char with state_ := LexerState.cr_or_crlf }) := by
      simp [Lexer.step, hstate, hcur]
    have hremA : ({ c.advance_char with state_ := LexerState.cr_or_crlf } : Lexer).rem = '\n' :: t := by
      show c.advance_char.rem = '\n' :: t
      rw [(Lexer.advance_char_of_lt hlen).2, hrem']
      rfl
    have hcurA : ({ c.advance_char with state_ := LexerState.cr_or_crlf } : Lexer).current_char = '\n' :=
      Lexer.current_char_of_rem hremA
    have hlenA : 1 < ({ c.advance_char with state_ := LexerState.cr_or_crlf } : Lexer).rem.length := by
      rw [hremA]
      have := List.length_pos.mpr ht
      simp [List.length_cons]
      omega
    have hs₂ : Lexer.step ({ c.advance_char with state_ := LexerState.cr_or_crlf }) =
        LStep.cont ({ ({ c.advance_char with state_ := LexerState.cr_or_crlf } : Lexer).advance_char.advance_line
          with state_ := LexerState.start }) :=
      Lexer.step_cr_lf rfl hcurA
    have hiter : Lexer.iterate 2 c = some
        ({ ({ c.advance_char with state_ := LexerState.cr_or_crlf } : Lexer).advance_char.advance_line
           with state_ := LexerState.start }) := by
      rw [Lexer.iterate_succ_cont hs₁, Lexer.iterate_succ_cont hs₂]
      rfl
    refine ⟨2, _, by omega, by omega, hiter, rfl, ?_, ?_, rfl, ?_, ?_, ?_, ?_⟩
    · show ({ c.advance_char with state_ := LexerState.cr_or_crlf } : Lexer).advance_char.rem = t
      rw [(Lexer.advance_char_of_lt hlenA).2, hremA]
      rfl
    · show ({ c.advance_char with state_ := LexerState.cr_or_crlf } : Lexer).advance_char.line_number_ + 1
        = c.line_number_ + 1
      simp
    · show ({ c.advance_char with state_ := LexerState.cr_or_crlf } : Lexer).advance_char.start_line_number_
        = c.start_line_number_
      simp
    · show ({ c.advance_char with state_ := LexerState.cr_or_crlf } : Lexer).advance_char.start_column_number_
        = c.start_column_number_
      simp
    · show ({ c.advance_char with state_ := LexerState.cr_or_crlf } : Lexer).advance_char.tokens_
        = c.tokens_
      simp
    · show ({ c.advance_char with state_ := LexerState.cr_or_crlf } : Lexer).advance_char.columns_per_tab_
        = c.columns_per_tab_
      simp

/--
  Consuming one line break in state multi_line_comment: within two loop
  iterations the lexer is back in multi_line_comment just past the break, on
  the next line at column 1, with everything else unchanged.
-/
theorem Lexer.break_progress_mlc {s t : List Char} {c : Lexer}
    (hs : isBreakSep s) (hstate : c.state_ = LexerState.multi_line_comment)
    (hrem : c.rem = s ++ t) (ht : t ≠ [])
    (hhd : s = crSep → t.headD '\x00' ≠ '\n') :
    ∃ k c', 1 ≤ k ∧ k ≤ 2 ∧ Lexer.iterate k c = some c' ∧
      c'.state_ = LexerState.multi_line_comment ∧ c'.rem = t ∧
      c'.line_number_ = c.line_number_ + 1 ∧ c'.column_number_ = 1 ∧
      c'.start_line_number_ = c.start_line_number_ ∧
      c'.start_column_number_ = c.start_column_number_ ∧
      c'.tokens_ = c.tokens_ ∧ c'.columns_per_tab_ = c.columns_per_tab_ := by
  rcases hs with hcr | hlf | hcrlf
  · -- CR
    subst hcr
    have hrem' : c.rem = '\r' :: t := hrem
    have hcur : c.current_char = '\r' := Lexer.current_char_of_rem hrem'
    have hlen : 1 < c.rem.length := by
      rw [hrem']
      have := List.length_pos.mpr ht
      simp [List.length_cons]
      omega
    have hs₁ : Lexer.step c = LStep.cont
        ({ c.advance_char with state_ := LexerState.multi_line_comment_cr_or_crlf }) := by
      simp [Lexer.step, hstate, hcur]
    have hremA : ({ c.advance_char with state_ := LexerState.multi_line_comment_cr_or_crlf } : Lexer).rem = t := by
      show c.advance_char.rem = t
      rw [(Lexer.advance_char_of_lt hlen).2, hrem']
      rfl
    have hcurA : ({ c.advance_char with state_ := LexerState.multi_line_comment_cr_or_crlf } : Lexer).current_char ≠ '\n' := by
      rw [Lexer.current_char_headD, hremA]
      exact hhd rfl
    have hs₂ : Lexer.step ({ c.advance_char with state_ := LexerState.multi_line_comment_cr_or_crlf }) =
        LStep.cont ({ ({ c.advance_char with state_ := LexerState.multi_line_comment_cr_or_crlf } : Lexer).advance_line
          with state_ := LexerState.multi_line_comment }) :=
      Lexer.step_mlc_cr_other rfl hcurA
    have hiter : Lexer.iterate 2 c = some
        ({ ({ c.advance_char with state_ := LexerState.multi_line_comment_cr_or_crlf } : Lexer).advance_line
           with state_ := LexerState.multi_line_comment }) := by
      rw [Lexer.iterate_succ_cont hs₁, Lexer.iterate_succ_cont hs₂]
      rfl
    refine ⟨2, _, by omega, by omega, hiter, rfl, ?_, ?_, rfl, ?_, ?_, ?_, ?_⟩
    · exact hremA
    · show c.advance_char.line_number_ + 1 = c.line_number_ + 1
      simp
    · show c.advance_char.start_line_number_ = c.start_line_number_
      simp
    · show c.advance_char.start_column_number_ = c.start_column_number_
      simp
    · show c.advance_char.tokens_ = c.tokens_
      simp
    · show c.advance_char.columns_per_tab_ = c.columns_per_tab_
      simp
  · -- LF
    subst hlf
    have hrem' : c.rem = '\n' :: t := hrem
    have hcur : c.current_char = '\n' := Lexer.current_char_of_rem hrem'
    have hlen : 1 < c.rem.length := by
      rw [hrem']
      have := List.length_pos.mpr ht
      simp [List.length_cons]
      omega
    have hs₁ : Lexer.step c = LStep.cont (c.advance_char.advance_line) := by
      simp [Lexer.step, hstate, hcur]
    have hiter : Lexer.iterate 1 c = some (c.advance_char.advance_line) := by
      rw [Lexer.iterate_succ_cont hs₁]
      rfl
    refine ⟨1, _, by omega, by omega, hiter, ?_, ?_, ?_, ?_, ?_, ?_, ?_, ?_⟩
    · simp [Lexer.advance_line, hstate]
    · show c.advance_char.rem = t
      rw [(Lexer.advance_char_of_lt hlen).2, hrem']
      rfl
    · simp [Lexer.advance_line]
    · simp [Lexer.advance_line]
    · simp [Lexer.advance_line]
    · simp [Lexer.advance_line]
    · simp [Lexer.advance_line]
    · simp [Lexer.advance_line]
  · -- CRLF
    subst hcrlf
    have hrem' : c.rem = '\r' :: '\n' :: t := hrem
    have hcur : c.current_char = '\r' := Lexer.current_char_of_rem hrem'
    have hlen : 1 < c.rem.length := by
      rw [hrem']
      simp [List.length_cons]
    have hs₁ : Lexer.step c = LStep.cont
        ({ c.advance_char with state_ := LexerState.multi_line_comment_cr_or_crlf }) := by
      simp [Lexer.step, hstate, hcur]
    have hremA : ({ c.advance_char with state_ := LexerState.multi_line_comment_cr_or_crlf } : Lexer).rem = '\n' :: t := by
      show c.advance_char.rem = '\n' :: t
      rw [(Lexer.advance_char_of_lt hlen).2, hrem']
      rfl
    have hcurA : ({ c.advance_char with state_ := LexerState.multi_line_comment_cr_or_crlf } : Lexer).current_char = '\n' :=
      Lexer.current_char_of_rem hremA
    have hlenA : 1 < ({ c.advance_char with state_ := LexerState.multi_line_comment_cr_or_crlf } : Lexer).rem.length := by
      rw [hremA]
      have := List.length_pos.mpr ht
      simp [List.length_cons]
      omega
    have hs₂ : Lexer.step ({ c.advance_char with state_ := LexerState.multi_line_comment_cr_or_crlf }) =
        LStep.cont ({ ({ c.advance_char with state_ := LexerState.multi_line_comment_cr_or_crlf } : Lexer).advance_char.advance_line
          with state_ := LexerState.multi_line_comment }) :=
      Lexer.step_mlc_cr_lf rfl hcurA
    have hiter : Lexer.iterate 2 c = some
        ({ ({ c.advance_char with state_ := LexerState.multi_line_comment_cr_or_crlf } : Lexer).advance_char.advance_line
           with state_ := LexerState.multi_line_comment }) := by
      rw [Lexer.iterate_succ_cont hs₁, Lexer.iterate_succ_cont hs₂]
      rfl
    refine ⟨2, _, by omega, by omega, hiter, rfl, ?_, ?_, rfl, ?_, ?_, ?_, ?_⟩
    · show ({ c.advance_char with state_ := LexerState.multi_line_comment_cr_or_crlf } : Lexer).advance_char.rem = t
      rw [(Lexer.advance_char_of_lt hlenA).2, hremA]
      rfl
    · show ({ c.advance_char with state_ := LexerState.multi_line_comment_cr_or_crlf } : Lexer).advance_char.line_number_ + 1
        = c.line_number_ + 1
      simp
    · show ({ c.advance_char with state_ := LexerState.multi_line_comment_cr_or_crlf } : Lexer).advance_char.start_line_number_
        = c.start_line_number_
      simp
    · show ({ c.advance_char with state_ := LexerState.multi_line_comment_cr_or_crlf } : Lexer).advance_char.start_column_number_
        = c.start_column_number_
      simp
    · show ({ c.advance_char with state_ := LexerState.multi_line_comment_cr_or_crlf } : Lexer).advance_char.tokens_
        = c.tokens_
      simp
    · show ({ c.advance_char with state_ := LexerState.multi_line_comment_cr_or_crlf } : Lexer).advance_char.columns_per_tab_
        = c.columns_per_tab_
      simp

/--
  Consuming one line break in the start state: within two loop iterations the
  lexer is back in the start state just past the break, on the next line at
  column 1; start_lexeme has run, so the saved start position is the position
  the break was read at; tokens and the tab width are unchanged.
-/
theorem Lexer.break_progress_start {s t : List Char} {c : Lexer}
    (hs : isBreakSep s) (hstate : c.state_ = LexerState.start)
    (hrem : c.rem = s ++ t) (ht : t ≠ [])
    (hhd : s = crSep → t.headD '\x00' ≠ '\n') :
    ∃ k c', 1 ≤ k ∧ k ≤ 2 ∧ Lexer.iterate k c = some c' ∧
      c'.state_ = LexerState.start ∧ c'.rem = t ∧
      c'.line_number_ = c.line_number_ + 1 ∧ c'.column_number_ = 1 ∧
      c'.start_line_number_ = c.line_number_ ∧
      c'.start_column_number_ = c.column_number_ ∧
      c'.tokens_ = c.tokens_ ∧ c'.columns_per_tab_ = c.columns_per_tab_ := by
  have hlenS : ∀ h : 1 < c.rem.length, 1 < c.start_lexeme.rem.length := by
    intro h
    simpa using h
  rcases hs with hcr | hlf | hcrlf
  · -- CR
    subst hcr
    have hrem' : c.rem = '\r' :: t := hrem
    have hcur : c.current_char = '\r' := Lexer.current_char_of_rem hrem'
    have hlen : 1 < c.rem.length := by
      rw [hrem']
      have := List.length_pos.mpr ht
      simp [List.length_cons]
      omega
    have hs₁ : Lexer.step c = LStep.cont
        ({ c.start_lexeme.advance_char with state_ := LexerState.cr_or_crlf }) := by
      simp [Lexer.step, hstate, hcur, (show lex_isalpha '\r' = false by decide)]
    have hremA : ({ c.start_lexeme.advance_char with state_ := LexerState.cr_or_crlf } : Lexer).rem = t := by
      show c.start_lexeme.advance_char.rem = t
      rw [(Lexer.advance_char_of_lt (hlenS hlen)).2, Lexer.start_lexeme_rem, hrem']
      rfl
    have hcurA : ({ c.start_lexeme.advance_char with state_ := LexerState.cr_or_crlf } : Lexer).current_char ≠ '\n' := by
      rw [Lexer.current_char_headD, hremA]
      exact hhd rfl
    have hs₂ : Lexer.step ({ c.start_lexeme.advance_char with state_ := LexerState.cr_or_crlf }) =
        LStep.cont ({ ({ c.start_lexeme.advance_char with state_ := LexerState.cr_or_crlf } : Lexer).advance_line
          with state_ := LexerState.start }) :=
      Lexer.step_cr_other rfl hcurA
    have hiter : Lexer.iterate 2 c = some
        ({ ({ c.start_lexeme.advance_char with state_ := LexerState.cr_or_crlf } : Lexer).advance_line
           with state_ := LexerState.start }) := by
      rw [Lexer.iterate_succ_cont hs₁, Lexer.iterate_succ_cont hs₂]
      rfl
    refine ⟨2, _, by omega, by omega, hiter, rfl, ?_, ?_, rfl, ?_, ?_, ?_, ?_⟩
    · exact hremA
    · show c.start_lexeme.advance_char.line_number_ + 1 = c.line_number_ + 1
      simp [Lexer.start_lexeme]
    · show c.start_lexeme.advance_char.start_line_number_ = c.line_number_
      simp [Lexer.start_lexeme]
    · show c.start_lexeme.advance_char.start_column_number_ = c.column_number_
      simp [Lexer.start_lexeme]
    · show c.start_lexeme.advance_char.tokens_ = c.tokens_
      simp [Lexer.start_lexeme]
    · show c.start_lexeme.advance_char.columns_per_tab_ = c.columns_per_tab_
      simp [Lexer.start_lexeme]
  · -- LF
    subst hlf
    have hrem' : c.rem = '\n' :: t := hrem
    have hcur : c.current_char = '\n' := Lexer.current_char_of_rem hrem'
    have hlen : 1 < c.rem.length := by
      rw [hrem']
      have := List.length_pos.mpr ht
      simp [List.length_cons]
      omega
    have hs₁ : Lexer.step c = LStep.cont (c.start_lexeme.advance_char.advance_line) := by
      simp [Lexer.step, hstate, hcur, (show lex_isalpha '\n' = false by decide)]
    have hiter : Lexer.iterate 1 c = some (c.start_lexeme.advance_char.advance_line) := by
      rw [Lexer.iterate_succ_cont hs₁]
      rfl
    refine ⟨1, _, by omega, by omega, hiter, ?_, ?_, ?_, ?_, ?_, ?_, ?_, ?_⟩
    · simp [Lexer.advance_line, Lexer.start_lexeme, hstate]
    · show c.start_lexeme.advance_char.rem = t
      rw [(Lexer.advance_char_of_lt (hlenS hlen)).2, Lexer.start_lexeme_rem, hrem']
      rfl
    · simp [Lexer.advance_line, Lexer.start_lexeme]
    · simp [Lexer.advance_line]
    · simp [Lexer.advance_line, Lexer.start_lexeme]
    · simp [Lexer.advance_line, Lexer.start_lexeme]
    · simp [Lexer.advance_line, Lexer.start_lexeme]
    · simp [Lexer.advance_line, Lexer.start_lexeme]
  · -- CRLF
    subst hcrlf
    have hrem' : c.rem = '\r' :: '\n' :: t := hrem
    have hcur : c.current_char = '\r' := Lexer.current_char_of_rem hrem'
    have hlen : 1 < c.rem.length := by
      rw [hrem']
      simp [List.length_cons]
    have hs₁ : Lexer.step c = LStep.cont
        ({ c.start_lexeme.advance_char with state_ := LexerState.cr_or_crlf }) := by
      simp [Lexer.step, hstate, hcur, (show lex_isalpha '\r' = false by decide)]
    have hremA : ({ c.start_lexeme.advance_char with state_ := LexerState.cr_or_crlf } : Lexer).rem = '\n' :: t := by
      show c.start_lexeme.advance_char.rem = '\n' :: t
      rw [(Lexer.advance_char_of_lt (hlenS hlen)).2, Lexer.start_lexeme_rem, hrem']
      rfl
    have hcurA : ({ c.start_lexeme.advance_char with state_ := LexerState.cr_or_crlf } : Lexer).current_char = '\n' :=
      Lexer.current_char_of_rem hremA
    have hlenA : 1 < ({ c.start_lexeme.advance_char with state_ := LexerState.cr_or_crlf } : Lexer).rem.length := by
      rw [hremA]
      have := List.length_pos.mpr ht
      simp [List.length_cons]
      omega
    have hs₂ : Lexer.step ({ c.start_lexeme.advance_char with state_ := LexerState.cr_or_crlf }) =
        LStep.cont ({ ({ c.start_lexeme.advance_char with state_ := LexerState.cr_or_crlf } : Lexer).advance_char.advance_line
          with state_ := LexerState.start }) :=
      Lexer.step_cr_lf rfl hcurA
    have hiter : Lexer.iterate 2 c = some
        ({ ({ c.start_lexeme.advance_char with state_ := LexerState.cr_or_crlf } : Lexer).advance_char.advance_line
           with state_ := LexerState.start }) := by
      rw [Lexer.iterate_succ_cont hs₁, Lexer.iterate_succ_cont hs₂]
      rfl
    refine ⟨2, _, by omega, by omega, hiter, rfl, ?_, ?_, rfl, ?_, ?_, ?_, ?_⟩
    · show ({ c.start_lexeme.advance_char with state_ := LexerState.cr_or_crlf } : Lexer).advance_char.rem = t
      rw [(Lexer.advance_char_of_lt hlenA).2, hremA]
      rfl
    · show ({ c.start_lexeme.advance_char with state_ := LexerState.cr_or_crlf } : Lexer).advance_char.line_number_ + 1
        = c.line_number_ + 1
      simp [Lexer.start_lexeme]
    · show ({ c.start_lexeme.advance_char with state_ := LexerState.cr_or_crlf } : Lexer).advance_char.start_line_number_
        = c.line_number_
      simp [Lexer.start_lexeme]
    · show ({ c.start_lexeme.advance_char with state_ := LexerState.cr_or_crlf } : Lexer).advance_char.start_column_number_
        = c.column_number_
      simp [Lexer.start_lexeme]
    · show ({ c.start_lexeme.advance_char with state_ := LexerState.cr_or_crlf } : Lexer).advance_char.tokens_
        = c.tokens_
      simp [Lexer.start_lexeme]
    · show ({ c.start_lexeme.advance_char with state_ := LexerState.cr_or_crlf } : Lexer).advance_char.columns_per_tab_
        = c.columns_per_tab_
      simp [Lexer.start_lexeme]

/-- The first character of a rendered line break is CR or LF. -/
theorem isBreakSep_head {s t : List Char} (hs : isBreakSep s) :
    (s ++ t).headD '\x00' = '\r' ∨ (s ++ t).headD '\x00' = '\n' := by
  rcases hs with h | h | h <;> subst h <;> simp [crSep, lfSep, crlfSep]

/-- A run that returns a token list from a halting configuration returns the
  halted tokens. -/
theorem Lexer.runFuel_halt {n : Nat} {c : Lexer} {ts ts' : List Token}
    (hs : Lexer.step c = LStep.halt ts') (h : Lexer.runFuel n c = some ts) :
    ts = ts' := by
  cases n with
  | zero => simp [Lexer.runFuel] at h
  | succ n =>
      rw [Lexer.runFuel, hs] at h
      injection h with h
      exact h.symm

/-- A successful run from a continuing configuration peels one iteration. -/
theorem Lexer.runFuel_cont {n : Nat} {c c' : Lexer} {ts : List Token}
    (hs : Lexer.step c = LStep.cont c') (h : Lexer.runFuel n c = some ts) :
    ∃ n', n = n' + 1 ∧ Lexer.runFuel n' c' = some ts := by
  cases n with
  | zero => simp [Lexer.runFuel] at h
  | succ n =>
      rw [Lexer.runFuel, hs] at h
      exact ⟨n, rfl, h⟩

/-- A successful run has positive fuel. -/
theorem Lexer.runFuel_pos {n : Nat} {c : Lexer} {ts : List Token}
    (h : Lexer.runFuel n c = some ts) : 0 < n := by
  cases n with
  | zero => simp [Lexer.runFuel] at h
  | succ n => exact Nat.succ_pos n

/--
  Master simulation: from related configurations (same state, never mid
  CR/CRLF, position-equivalent, remaining inputs two renderings of one
  logical remainder), two successful runs of Lexer::run produce token lists
  with identical line/column positions.
-/
theorem Lexer.lexSim_pos_eq {s₁ s₂ : List Char}
    (hb₁ : isBreakSep s₁) (hb₂ : isBreakSep s₂) :
    ∀ n₁ : Nat, ∀ c₁ c₂ : Lexer, LexSim s₁ s₂ c₁ c₂ →
      ∀ n₂ : Nat, ∀ ts₁ ts₂ : List Token,
        Lexer.runFuel n₁ c₁ = some ts₁ → Lexer.runFuel n₂ c₂ = some ts₂ →
        ts₁.map tokenPos = ts₂.map tokenPos := by
  intro n₁
  induction n₁ using Nat.strong_induction_on with
  | _ n₁ ih =>
  intro c₁ c₂ hsim n₂ ts₁ ts₂ h₁ h₂
  obtain ⟨hstate, hokc, hokm, hpos, hrel⟩ := hsim
  obtain ⟨u, v, hu, hv, hrel2⟩ :
      ∃ u v, c₁.rem = u ∧ c₂.rem = v ∧ StrRel s₁ s₂ u v := ⟨_, _, rfl, rfl, hrel⟩
  cases hrel2 with
  | nul =>
      have hcur₁ : c₁.current_char = '\x00' := Lexer.current_char_of_rem hu
      have hcur₂ : c₂.current_char = '\x00' := Lexer.current_char_of_rem hv
      rcases Lexer.lockstep hstate hokc hokm hpos (hcur₁.trans hcur₂.symm)
          (by rw [hcur₁]; decide) (by rw [hcur₁]; decide)
          (Or.inl ⟨by rw [hu]; rfl, by rw [hv]; rfl⟩) with
        ⟨ta, tb, e₁, e₂, hmap⟩ |
        ⟨c₁', c₂', e₁, e₂, hst', hnc', hnm', hpos', hremc⟩
      · rw [Lexer.runFuel_halt e₁ h₁, Lexer.runFuel_halt e₂ h₂]
        exact hmap
      · obtain ⟨m₁, rfl, h₁'⟩ := Lexer.runFuel_cont e₁ h₁
        obtain ⟨m₂, rfl, h₂'⟩ := Lexer.runFuel_cont e₂ h₂
        rcases hremc with ⟨r₁, r₂⟩ | ⟨hl₁, _, _, _⟩
        · exact ih m₁ (Nat.lt_succ_self m₁) c₁' c₂'
            ⟨hst', hnc', hnm', hpos', by rw [r₁, r₂, hu, hv]; exact StrRel.nul⟩
            m₂ ts₁ ts₂ h₁' h₂'
        · rw [hu] at hl₁
          exact absurd hl₁ (by decide)
  | @ch a t₁ t₂ ha1 ha2 ha3 hsub =>
      have hcur₁ : c₁.current_char = a := Lexer.current_char_of_rem hu
      have hcur₂ : c₂.current_char = a := Lexer.current_char_of_rem hv
      have ht₁ : t₁ ≠ [] := hsub.left_ne_nil hb₁
      have ht₂ : t₂ ≠ [] := hsub.right_ne_nil hb₂
      have hlen₁ : 1 < c₁.rem.length := by
        rw [hu]
        have := List.length_pos.mpr ht₁
        simp [List.length_cons]
        omega
      have hlen₂ : 1 < c₂.rem.length := by
        rw [hv]
        have := List.length_pos.mpr ht₂
        simp [List.length_cons]
        omega
      rcases Lexer.lockstep hstate hokc hokm hpos (hcur₁.trans hcur₂.symm)
          (by rw [hcur₁]; exact ha1) (by rw [hcur₁]; exact ha2)
          (Or.inr ⟨hlen₁, hlen₂⟩) with
        ⟨ta, tb, e₁, e₂, hmap⟩ |
        ⟨c₁', c₂', e₁, e₂, hst', hnc', hnm', hpos', hremc⟩
      · rw [Lexer.runFuel_halt e₁ h₁, Lexer.runFuel_halt e₂ h₂]
        exact hmap
      · obtain ⟨m₁, rfl, h₁'⟩ := Lexer.runFuel_cont e₁ h₁
        obtain ⟨m₂, rfl, h₂'⟩ := Lexer.runFuel_cont e₂ h₂
        rcases hremc with ⟨r₁, r₂⟩ | ⟨_, _, r₁, r₂⟩
        · exact ih m₁ (Nat.lt_succ_self m₁) c₁' c₂'
            ⟨hst', hnc', hnm', hpos',
             by rw [r₁, r₂, hu, hv]; exact StrRel.ch ha1 ha2 ha3 hsub⟩
            m₂ ts₁ ts₂ h₁' h₂'
        · exact ih m₁ (Nat.lt_succ_self m₁) c₁' c₂'
            ⟨hst', hnc', hnm', hpos',
             by rw [r₁, r₂, hu, hv]; exact hsub⟩
            m₂ ts₁ ts₂ h₁' h₂'
  | @brk t₁ t₂ hsub =>
      have ht₁ : t₁ ≠ [] := hsub.left_ne_nil hb₁
      have ht₂ : t₂ ≠ [] := hsub.right_ne_nil hb₂
      have hbr₁ : c₁.current_char = '\r' ∨ c₁.current_char = '\n' := by
        rw [Lexer.current_char_headD, hu]
        exact isBreakSep_head hb₁
      have hbr₂ : c₂.current_char = '\r' ∨ c₂.current_char = '\n' := by
        rw [Lexer.current_char_headD, hv]
        exact isBreakSep_head hb₂
      have hn₁pos : 0 < n₁ := Lexer.runFuel_pos h₁
      cases hstv : c₁.state_ with
      | cr_or_crlf => exact absurd hstv hokc
      | multi_line_comment_cr_or_crlf => exact absurd hstv hokm
      | identifier_or_keyword =>
          obtain ⟨c₁', c₂', e₁, e₂, hst', hnc', hnm', hpos', r₁, r₂⟩ :=
            Lexer.break_passive hstate (Or.inl hstv) hpos hbr₁ hbr₂
          obtain ⟨m₁, rfl, h₁'⟩ := Lexer.runFuel_cont e₁ h₁
          obtain ⟨m₂, rfl, h₂'⟩ := Lexer.runFuel_cont e₂ h₂
          exact ih m₁ (Nat.lt_succ_self m₁) c₁' c₂'
            ⟨hst', hnc', hnm', hpos', by rw [r₁, r₂, hu, hv]; exact StrRel.brk hsub⟩
            m₂ ts₁ ts₂ h₁' h₂'
      | divide_or_comment =>
          obtain ⟨c₁', c₂', e₁, e₂, hst', hnc', hnm', hpos', r₁, r₂⟩ :=
            Lexer.break_passive hstate (Or.inr (Or.inl hstv)) hpos hbr₁ hbr₂
          obtain ⟨m₁, rfl, h₁'⟩ := Lexer.runFuel_cont e₁ h₁
          obtain ⟨m₂, rfl, h₂'⟩ := Lexer.runFuel_cont e₂ h₂
          exact ih m₁ (Nat.lt_succ_self m₁) c₁' c₂'
            ⟨hst', hnc', hnm', hpos', by rw [r₁, r₂, hu, hv]; exact StrRel.brk hsub⟩
            m₂ ts₁ ts₂ h₁' h₂'
      | minus_or_arrow =>
          obtain ⟨c₁', c₂', e₁, e₂, hst', hnc', hnm', hpos', r₁, r₂⟩ :=
            Lexer.break_passive hstate (Or.inr (Or.inr (Or.inl hstv))) hpos hbr₁ hbr₂
          obtain ⟨m₁, rfl, h₁'⟩ := Lexer.runFuel_cont e₁ h₁
          obtain ⟨m₂, rfl, h₂'⟩ := Lexer.runFuel_cont e₂ h₂
          exact ih m₁ (Nat.lt_succ_self m₁) c₁' c₂'
            ⟨hst', hnc', hnm', hpos', by rw [r₁, r₂, hu, hv]; exact StrRel.brk hsub⟩
            m₂ ts₁ ts₂ h₁' h₂'
      | multi_line_comment_maybe_end =>
          obtain ⟨c₁', c₂', e₁, e₂, hst', hnc', hnm', hpos', r₁, r₂⟩ :=
            Lexer.break_passive hstate (Or.inr (Or.inr (Or.inr hstv))) hpos hbr₁ hbr₂
          obtain ⟨m₁, rfl, h₁'⟩ := Lexer.runFuel_cont e₁ h₁
          obtain ⟨m₂, rfl, h₂'⟩ := Lexer.runFuel_cont e₂ h₂
          exact ih m₁ (Nat.lt_succ_self m₁) c₁' c₂'
            ⟨hst', hnc', hnm', hpos', by rw [r₁, r₂, hu, hv]; exact StrRel.brk hsub⟩
            m₂ ts₁ ts₂ h₁' h₂'
      | start =>
          have hstv₂ : c₂.state_ = LexerState.start := hstate.symm.trans hstv
          obtain ⟨k₁, c₁', hk₁a, hk₁b, hit₁, hA₁, hB₁, hC₁, hD₁, hE₁, hF₁, hG₁, hH₁⟩ :=
            Lexer.break_progress_start hb₁ hstv hu ht₁
              (fun h => hsub.head_ne_lf (Or.inl h))
          obtain ⟨k₂, c₂', hk₂a, hk₂b, hit₂, hA₂, hB₂, hC₂, hD₂, hE₂, hF₂, hG₂, hH₂⟩ :=
            Lexer.break_progress_start hb₂ hstv₂ hv ht₂
              (fun h => hsub.head_ne_lf_right (Or.inl h))
          obtain ⟨hk₁n, h₁'⟩ := Lexer.runFuel_peel hit₁ h₁
          obtain ⟨hk₂n, h₂'⟩ := Lexer.runFuel_peel hit₂ h₂
          exact ih (n₁ - k₁) (by omega) c₁' c₂'
            ⟨hA₁.trans hA₂.symm, by rw [hA₁]; decide, by rw [hA₁]; decide,
             ⟨by rw [hC₁, hC₂, hpos.line_eq], by rw [hD₁, hD₂],
              by rw [hE₁, hE₂, hpos.line_eq], by rw [hF₁, hF₂, hpos.col_eq],
              by rw [hH₁, hH₂, hpos.tab_eq], by rw [hG₁, hG₂, hpos.pos_eq]⟩,
             by rw [hB₁, hB₂]; exact hsub⟩
            (n₂ - k₂) ts₁ ts₂ h₁' h₂'
      | single_line_comment =>
          have hstv₂ : c₂.state_ = LexerState.single_line_comment := hstate.symm.trans hstv
          obtain ⟨k₁, c₁', hk₁a, hk₁b, hit₁, hA₁, hB₁, hC₁, hD₁, hE₁, hF₁, hG₁, hH₁⟩ :=
            Lexer.break_progress_slc hb₁ hstv hu ht₁
              (fun h => hsub.head_ne_lf (Or.inl h))
          obtain ⟨k₂, c₂', hk₂a, hk₂b, hit₂, hA₂, hB₂, hC₂, hD₂, hE₂, hF₂, hG₂, hH₂⟩ :=
            Lexer.break_progress_slc hb₂ hstv₂ hv ht₂
              (fun h => hsub.head_ne_lf_right (Or.inl h))
          obtain ⟨hk₁n, h₁'⟩ := Lexer.runFuel_peel hit₁ h₁
          obtain ⟨hk₂n, h₂'⟩ := Lexer.runFuel_peel hit₂ h₂
          exact ih (n₁ - k₁) (by omega) c₁' c₂'
            ⟨hA₁.trans hA₂.symm, by rw [hA₁]; decide, by rw [hA₁]; decide,
             ⟨by rw [hC₁, hC₂, hpos.line_eq], by rw [hD₁, hD₂],
              by rw [hE₁, hE₂, hpos.sline_eq], by rw [hF₁, hF₂, hpos.scol_eq],
              by rw [hH₁, hH₂, hpos.tab_eq], by rw [hG₁, hG₂, hpos.pos_eq]⟩,
             by rw [hB₁, hB₂]; exact hsub⟩
            (n₂ - k₂) ts₁ ts₂ h₁' h₂'
      | multi_line_comment =>
          have hstv₂ : c₂.state_ = LexerState.multi_line_comment := hstate.symm.trans hstv
          obtain ⟨k₁, c₁', hk₁a, hk₁b, hit₁, hA₁, hB₁, hC₁, hD₁, hE₁, hF₁, hG₁, hH₁⟩ :=
            Lexer.break_progress_mlc hb₁ hstv hu ht₁
              (fun h => hsub.head_ne_lf (Or.inl h))
          obtain ⟨k₂, c₂', hk₂a, hk₂b, hit₂, hA₂, hB₂, hC₂, hD₂, hE₂, hF₂, hG₂, hH₂⟩ :=
            Lexer.break_progress_mlc hb₂ hstv₂ hv ht₂
              (fun h => hsub.head_ne_lf_right (Or.inl h))
          obtain ⟨hk₁n, h₁'⟩ := Lexer.runFuel_peel hit₁ h₁
          obtain ⟨hk₂n, h₂'⟩ := Lexer.runFuel_peel hit₂ h₂
          exact ih (n₁ - k₁) (by omega) c₁' c₂'
            ⟨hA₁.trans hA₂.symm, by rw [hA₁]; decide, by rw [hA₁]; decide,
             ⟨by rw [hC₁, hC₂, hpos.line_eq], by rw [hD₁, hD₂],
              by rw [hE₁, hE₂, hpos.sline_eq], by rw [hF₁, hF₂, hpos.scol_eq],
              by rw [hH₁, hH₂, hpos.tab_eq], by rw [hG₁, hG₂, hpos.pos_eq]⟩,
             by rw [hB₁, hB₂]; exact hsub⟩
            (n₂ - k₂) ts₁ ts₂ h₁' h₂'

/-- A common prefix of plain characters preserves the rendering relation. -/
theorem StrRel.prepend {s₁ s₂ u v : List Char} (l : List Char)
    (hl : ∀ a ∈ l, a ≠ '\r' ∧ a ≠ '\n' ∧ a ≠ '\x00')
    (h : StrRel s₁ s₂ u v) : StrRel s₁ s₂ (l ++ u) (l ++ v) := by
  induction l with
  | nil => simpa using h
  | cons a l ih =>
      have ha := hl a (List.mem_cons_self a l)
      exact StrRel.ch ha.1 ha.2.1 ha.2.2 (ih fun b hb => hl b (List.mem_cons_of_mem a hb))

/--
  The two renderings of one logical text (a list of lines of plain
  characters) are related character for character, break for break.
-/
theorem StrRel.of_renderText {s₁ s₂ : List Char} (lines : List (List Char))
    (hplain : ∀ l ∈ lines, ∀ a ∈ l, a ≠ '\r' ∧ a ≠ '\n' ∧ a ≠ '\x00') :
    StrRel s₁ s₂ (renderText s₁ lines) (renderText s₂ lines) := by
  induction lines with
  | nil => exact StrRel.nul
  | cons l ls ih =>
      cases ls with
      | nil =>
          simp only [renderText]
          exact StrRel.prepend l (hplain l (List.mem_cons_self l [])) StrRel.nul
      | cons l₂ ls' =>
          simp only [renderText]
          rw [List.append_assoc, List.append_assoc]
          refine StrRel.prepend l (hplain l (List.mem_cons_self l (l₂ :: ls'))) ?_
          exact StrRel.brk (ih fun m hm => hplain m (List.mem_cons_of_mem l hm))

/-- A two-line logical text used to witness C7. -/
def c7lines : List (List Char) := [['+'], ['+']]

/-- The token list every rendering of c7lines lexes to. -/
def c7toks : List Token :=
  [⟨TokenType.plus, "+", 1, 1⟩, ⟨TokenType.plus, "+", 2, 1⟩,
   ⟨TokenType.«end», "", 2, 2⟩]

/--
  C7 — line/column tracking is invariant to the line-break encoding.  First
  part: for every logical source text (a list of lines of plain characters)
  and any two of the three break encodings (CR, LF, CRLF), whenever
  Lexer::run terminates on both renderings, the two token sequences carry
  identical (line, column) pairs position for position.  Second part: each
  break encoding counts as exactly one line break: consumed from the start
  state it takes at most two loop iterations, after which the line counter
  has incremented by 1 and the column counter has reset to 1.
-/
theorem c7_line_ending_invariance :
    (∀ lines : List (List Char),
       (∀ l ∈ lines, ∀ a ∈ l, a ≠ '\r' ∧ a ≠ '\n' ∧ a ≠ '\x00') →
       ∀ s₁ s₂ : List Char, isBreakSep s₁ → isBreakSep s₂ →
       ∀ n₁ n₂ : Nat, ∀ ts₁ ts₂ : List Token,
         Lexer.runFuel n₁ (Lexer.init (renderText s₁ lines)) = some ts₁ →
         Lexer.runFuel n₂ (Lexer.init (renderText s₂ lines)) = some ts₂ →
         ts₁.map tokenPos = ts₂.map tokenPos) ∧
    (∀ s t : List Char, ∀ c : Lexer, isBreakSep s →
       c.state_ = LexerState.start → c.rem = s ++ t → t ≠ [] →
       (s = crSep → t.headD '\x00' ≠ '\n') →
       ∃ k c', 1 ≤ k ∧ k ≤ 2 ∧ Lexer.iterate k c = some c' ∧
         c'.line_number_ = c.line_number_ + 1 ∧ c'.column_number_ = 1) := by
  constructor
  · intro lines hplain s₁ s₂ hb₁ hb₂ n₁ n₂ ts₁ ts₂ h₁ h₂
    refine Lexer.lexSim_pos_eq hb₁ hb₂ n₁
      (Lexer.init (renderText s₁ lines)) (Lexer.init (renderText s₂ lines))
      ⟨rfl, fun h => LexerState.noConfusion h, fun h => LexerState.noConfusion h,
       ⟨rfl, rfl, rfl, rfl, rfl, rfl⟩, ?_⟩
      n₂ ts₁ ts₂ h₁ h₂
    exact StrRel.of_renderText lines hplain
  · intro s t c hs hstate hrem ht hhd
    obtain ⟨k, c', h1, h2, h3, _, _, h6, h7, _, _, _, _⟩ :=
      Lexer.break_progress_start hs hstate hrem ht hhd
    exact ⟨k, c', h1, h2, h3, h6, h7⟩

/--
  C7 witness — both parts of the theorem applied at a concrete input: the
  CR and LF renderings of the two-line text "+\n+" both lex (conclusion via
  the theorem's first part), and consuming the leading LF of "\n+" advances
  the line and resets the column (via the theorem's second part).
-/
theorem c7_line_ending_invariance_witness :
    Lexer.runFuel 6 (Lexer.init (renderText crSep c7lines)) = some c7toks ∧
    Lexer.runFuel 6 (Lexer.init (renderText lfSep c7lines)) = some c7toks ∧
    c7toks.map tokenPos = c7toks.map tokenPos ∧
    (∃ k c', 1 ≤ k ∧ k ≤ 2 ∧
       Lexer.iterate k (Lexer.init ['\n', '+', '\x00']) = some c' ∧
       c'.line_number_ = (Lexer.init ['\n', '+', '\x00']).line_number_ + 1 ∧
       c'.column_number_ = 1) :=
  ⟨by decide, by decide,
   c7_line_ending_invariance.1 c7lines (by decide) crSep lfSep (Or.inl rfl)
     (Or.inr (Or.inl rfl)) 6 6 c7toks c7toks (by decide) (by decide),
   c7_line_ending_invariance.2 lfSep ['+', '\x00'] (Lexer.init ['\n', '+', '\x00'])
     (Or.inr (Or.inl rfl)) rfl rfl (by decide) (fun h => absurd h (by decide))⟩

end Veil
